import Mathlib

/-!
Shallow embedding of the neoscene compilation core
(`src/neoscene/core/asset_catalog.py`, `src/neoscene/core/scene_schema.py`,
`src/neoscene/exporters/mjcf_exporter.py`).

Numbers are modelled with `ℚ` (the Python code uses floats only through
arithmetic whose exact rounding no verified claim depends on).  Python
strings are Lean `String`s.  Transcendental primitives (`cos`, `sin`,
`sqrt`, `atan2`) and the Mersenne-Twister uniform draws of
`random.Random(seed)` are abstracted into an explicit parameter structure
`Prims`: each is an arbitrary deterministic function, which is faithful
because every claim below depends only on determinism, counts, and
ordering, never on the numeric values of those primitives.
-/

namespace NeoScene

/-! ### String helpers (Python `str.lower`, `in`, `startswith`, slicing) -/

/-- Model of Python `str.lower()` (per-character lowering). -/
def lowerStr (s : String) : String := String.mk (s.toList.map Char.toLower)

/-- True when the first list is a leading segment of the second
(models Python `str.startswith` on exploded strings). -/
def charsStart : List Char → List Char → Bool
  | [], _ => true
  | _ :: _, [] => false
  | a :: n, b :: h => a == b && charsStart n h

/-- True when the first list occurs contiguously inside the second
(models Python `in` on strings). -/
def charsSub : List Char → List Char → Bool
  | n, [] => n.isEmpty
  | n, b :: t => charsStart n (b :: t) || charsSub n t

/-- Model of Python `needle in haystack` for strings. -/
def strIn (needle haystack : String) : Bool := charsSub needle.toList haystack.toList

/-- Model of Python `s.startswith(p)`. -/
def strStarts (s p : String) : Bool := charsStart p.toList s.toList

/-- Model of Python `s[:3]`. -/
def take3 (s : String) : String := String.mk (s.toList.take 3)

/-! ### Asset model (`asset_manifest.py` / `asset_catalog.py`)

An `AssetManifest` keeps exactly the manifest fields the verified
operations read.  A manifest whose `semantics` block is absent behaves
identically to one with empty `human_names`/`usage` lists, so the
optional block is flattened into the two lists. -/

structure AssetManifest where
  asset_id : String
  name : String
  category : String
  tags : List String
  fallback_for : List String
  availability : String
  human_names : List String
  usage : List String
  mjcf_include : String
  path : String
  deriving Repr, DecidableEq

/-- The catalog state after `_scan`: the manifests in scan order.
`_by_id` insertion order, `_summaries` order and the order in which the
`_by_fallback` lists are extended all coincide with this scan order. -/
structure AssetCatalog where
  assets : List AssetManifest
  deriving Repr, DecidableEq

/-- Model of `self._by_id[aid]` / `self._paths[aid]` lookup (dict keyed by
`asset_id`; ids are unique in a scanned catalog, so first-match lookup
agrees with the Python dict). -/
def lookupId (c : AssetCatalog) (aid : String) : Option AssetManifest :=
  c.assets.find? (fun m => m.asset_id == aid)

/-- The per-entry test of `AssetCatalog._find_similar`: substring
containment in either direction, or (query longer than 3 chars and the
existing id starts with the query's first 3 chars).  `qLower` is the
already-lowercased query. -/
def similarPred (qLower : String) (existingId : String) : Bool :=
  let eLower := lowerStr existingId
  (strIn qLower eLower || strIn eLower qLower)
    || (decide (3 < qLower.length) && strStarts eLower (take3 qLower))

/-- Model of `AssetCatalog._find_similar(asset_id, limit=3)`: one pass over
`_by_id` in scan order, keeping entries that pass `similarPred`, truncated
to 3. -/
def findSimilar (c : AssetCatalog) (asset_id : String) : List String :=
  (((c.assets.map (fun m => m.asset_id))).filter
      (fun e => similarPred (lowerStr asset_id) e)).take 3

/-! ### Scoring and search (`AssetCatalog._score` / `AssetCatalog.search`) -/

/-- One weighted signal of `_score`: `e` points for an exact
(case-insensitive) match, else `p` points for substring containment of
the query in the field, else 0. -/
def exactOr (q field : String) (e p : Nat) : Nat :=
  if q == lowerStr field then e
  else if strIn q (lowerStr field) then p else 0

/-- The score contribution of `_score` from the asset id alone
(100 exact / 50 partial). -/
def idScore (m : AssetManifest) (query : String) : Nat :=
  exactOr (lowerStr query) m.asset_id 100 50

/-- The score contributions of `_score` from everything except the asset
id: name (80/40), tags (30/15 each), semantic human names (25/12 each),
usage phrases (20/10 each). -/
def restScore (m : AssetManifest) (query : String) : Nat :=
  let q := lowerStr query
  exactOr q m.name 80 40
    + (m.tags.map (fun t => exactOr q t 30 15)).sum
    + (m.human_names.map (fun s => exactOr q s 25 12)).sum
    + (m.usage.map (fun s => exactOr q s 20 10)).sum

/-- Model of `AssetCatalog._score`: the sum of all weighted signals. -/
def score (m : AssetManifest) (query : String) : Nat :=
  idScore m query + restScore m query

/-- Stable descending insertion used to model Python's stable
`list.sort(key=score, reverse=True)`: a new element goes after every
element of equal or higher score. -/
def insertDesc (x : Nat × AssetManifest) :
    List (Nat × AssetManifest) → List (Nat × AssetManifest)
  | [] => [x]
  | y :: ys => if y.1 < x.1 then x :: y :: ys else y :: insertDesc x ys

/-- Stable sort by descending score (left fold of stable insertions gives
exactly the order of Python's stable reverse sort on the score key). -/
def sortDesc (l : List (Nat × AssetManifest)) : List (Nat × AssetManifest) :=
  l.foldl (fun acc x => insertDesc x acc) []

/-- Model of `AssetCatalog.search(query, category, limit)`: category
filter, score, drop zero scores, stable sort by descending score,
truncate to `limit`. -/
def search (c : AssetCatalog) (query : String) (category : Option String)
    (limit : Nat) : List AssetManifest :=
  let pre := c.assets.filter (fun m =>
    match category with
    | some cat => m.category == cat
    | none => true)
  let scored := pre.filterMap (fun m =>
    let s := score m query
    if 0 < s then some (s, m) else none)
  ((sortDesc scored).map (fun x => x.2)).take limit

/-! ### Fallback resolution (`AssetCatalog.find_fallback`) -/

/-- Model of the `_by_fallback[concept_lower]` candidate list: built during
the scan by appending, for each manifest in scan order, the asset id once
per occurrence of the concept in its `fallback_for` list. -/
def byFallback (c : AssetCatalog) (conceptLower : String) : List String :=
  (c.assets.map (fun m =>
    (m.fallback_for.filter (fun cpt => lowerStr cpt == conceptLower)).map
      (fun _ => m.asset_id))).flatten

/-- The acceptance test of the first loop in `find_fallback`: the candidate
resolves, passes the category filter, and is locally available. -/
def localPass (c : AssetCatalog) (category : Option String) (aid : String) : Bool :=
  match lookupId c aid with
  | some m =>
      (match category with
       | some cat => m.category == cat
       | none => true) && m.availability == "local"
  | none => false

/-- Model of `AssetCatalog.find_fallback(concept, category)`: the first
candidate passing the category filter with local availability; otherwise
the first candidate of the index entry (note: taken regardless of the
category filter and of availability); `none` when the concept has no
index entry. -/
def findFallback (c : AssetCatalog) (concept : String)
    (category : Option String) : Option AssetManifest :=
  let candidates := byFallback c (lowerStr concept)
  match candidates.find? (fun aid => localPass c category aid) with
  | some aid => lookupId c aid
  | none =>
      match candidates with
      | [] => none
      | a :: _ => lookupId c a

/-! ### Scene IR (`scene_schema.py`)

Validated 3-vectors become triples, 2-vectors pairs.  Pydantic numeric
bounds (`rows ≥ 1`, `radius > 0`, …) become hypotheses of the theorems
that need them. -/

structure Pose where
  position : ℚ × ℚ × ℚ
  yaw_deg : ℚ
  pitch_deg : ℚ
  roll_deg : ℚ
  deriving Repr, DecidableEq

structure GridLayout where
  origin : ℚ × ℚ × ℚ
  rows : Nat
  cols : Nat
  spacing : ℚ × ℚ
  yaw_variation_deg : ℚ
  deriving Repr, DecidableEq

structure RandomLayout where
  center : ℚ × ℚ × ℚ
  radius : ℚ
  count : Nat
  min_separation : ℚ
  random_yaw : Bool
  deriving Repr, DecidableEq

/-- The `Union[GridLayout, RandomLayout]` of `ObjectSpec.layout`. -/
inductive Layout where
  | grid (g : GridLayout)
  | rand (r : RandomLayout)
  deriving Repr, DecidableEq

structure InstanceSpec where
  pose : Pose
  name_suffix : Option String
  deriving Repr, DecidableEq

structure ObjectSpec where
  asset_id : String
  name : Option String
  layout : Option Layout
  instances : Option (List InstanceSpec)
  deriving Repr, DecidableEq

structure CameraSpec where
  name : String
  pose : Pose
  target : Option (ℚ × ℚ × ℚ)
  fovy : ℚ
  deriving Repr, DecidableEq

structure LightSpec where
  name : String
  type : String
  position : ℚ × ℚ × ℚ
  direction : Option (ℚ × ℚ × ℚ)
  diffuse : ℚ × ℚ × ℚ
  specular : ℚ × ℚ × ℚ
  deriving Repr, DecidableEq

structure EnvironmentSpec where
  asset_id : String
  gravity : ℚ × ℚ × ℚ
  deriving Repr, DecidableEq

structure PhysicsSpec where
  timestep : ℚ
  solver : String
  iterations : Nat
  integrator : String
  deriving Repr, DecidableEq

structure SceneSpec where
  name : String
  environment : EnvironmentSpec
  objects : List ObjectSpec
  cameras : List CameraSpec
  lights : List LightSpec
  physics : PhysicsSpec
  deriving Repr, DecidableEq

/-! ### Abstract numeric/random primitives

`Prims.stream seed k` stands for the value returned by the `k`-th call to
`random.Random(seed).uniform(..)` inside one expansion; `cosQ`, `sinQ`,
`sqrtQ`, `atan2DegQ` stand for `math.cos`, `math.sin`, `math.sqrt` and
`math.atan2(..) * 180 / math.pi`.  They are arbitrary deterministic
functions: no verified claim depends on their numeric values, only on the
code's draw ordering and determinism, which the explicit state threading
below reproduces exactly. -/

structure Prims where
  stream : Int → Nat → ℚ
  cosQ : ℚ → ℚ
  sinQ : ℚ → ℚ
  sqrtQ : ℚ → ℚ
  atan2DegQ : ℚ → ℚ → ℚ

/-- State of one `random.Random(seed)` object: the seed and how many
uniform draws have been consumed. -/
structure Rng where
  seed : Int
  pos : Nat
  deriving Repr, DecidableEq

/-- One `rng.uniform(..)` call: the next stream value, advancing the
draw counter. -/
def Rng.next (P : Prims) (r : Rng) : ℚ × Rng :=
  (P.stream r.seed r.pos, ⟨r.seed, r.pos + 1⟩)

/-! ### Layout engine (`_layout_instances`) -/

/-- Grid cell iteration order of the two nested loops in
`_layout_instances`: row outer, column inner (row-major). -/
def gridCells (rows cols : Nat) : List (Nat × Nat) :=
  (List.range rows).flatMap (fun row => (List.range cols).map (fun col => (row, col)))

/-- Position of the grid cell `(row, col)`:
`(origin.x + col·spacing.x, origin.y + row·spacing.y, origin.z)`. -/
def gridPos (g : GridLayout) (row col : Nat) : ℚ × ℚ × ℚ :=
  (g.origin.1 + (col : ℚ) * g.spacing.1,
   g.origin.2.1 + (row : ℚ) * g.spacing.2,
   g.origin.2.2)

/-- The grid branch of `_layout_instances`: one instance per cell with an
`r{row}_c{col}` suffix; a uniform yaw draw is consumed per cell only when
`yaw_variation_deg > 0`. -/
def gridGo (P : Prims) (g : GridLayout) : List (Nat × Nat) → Rng → List InstanceSpec
  | [], _ => []
  | (row, col) :: rest, rng =>
      let yawAndRng :=
        if 0 < g.yaw_variation_deg then Rng.next P rng else (0, rng)
      ⟨⟨gridPos g row col, yawAndRng.1, 0, 0⟩,
        some ("r" ++ toString row ++ "_c" ++ toString col)⟩
        :: gridGo P g rest yawAndRng.2

/-- Grid expansion with a fresh `random.Random(seed)`. -/
def gridInstances (P : Prims) (g : GridLayout) (seed : Int) : List InstanceSpec :=
  gridGo P g (gridCells g.rows g.cols) ⟨seed, 0⟩

/-- The separation test of the random branch: some already-placed point is
closer than `minSep` (the Python loop breaks at the first violation, which
is observationally `List.any`). -/
def tooClose (P : Prims) (minSep : ℚ) (placed : List (ℚ × ℚ)) (x y : ℚ) : Bool :=
  placed.any (fun p =>
    decide (P.sqrtQ ((x - p.1) ^ 2 + (y - p.2) ^ 2) < minSep))

/-- One candidate draw of the random branch: an angle draw and a radius
draw, turned into a point of the disk around `center`. -/
def drawPoint (P : Prims) (lay : RandomLayout) (rng : Rng) : (ℚ × ℚ) × Rng :=
  let a := Rng.next P rng
  let u := Rng.next P a.2
  let rr := P.sqrtQ u.1 * lay.radius
  ((lay.center.1 + rr * P.cosQ a.1, lay.center.2.1 + rr * P.sinQ a.1), u.2)

/-- The rejection test of one attempt: the separation constraint is
active (`min_separation > 0`) and the candidate is too close to an
already-placed point. -/
def rejected (P : Prims) (lay : RandomLayout) (placed : List (ℚ × ℚ))
    (pt : ℚ × ℚ) : Bool :=
  decide (0 < lay.min_separation) && tooClose P lay.min_separation placed pt.1 pt.2

/-- The `for _ in range(max_attempts)` loop of the random branch, with the
remaining attempt budget explicit.  Returns the chosen point, whether it
was accepted into `placed_positions` (`false` exactly when the budget ran
out, in which case the point is the last attempted one), and the advanced
rng. -/
def attemptLoop (P : Prims) (lay : RandomLayout) (placed : List (ℚ × ℚ)) :
    Nat → Rng → (ℚ × ℚ) × Bool × Rng
  | 0, rng => ((0, 0), false, rng)
  | n + 1, rng =>
      let d := drawPoint P lay rng
      if rejected P lay placed d.1 then
        match n with
        | 0 => (d.1, false, d.2)
        | m + 1 => attemptLoop P lay placed (m + 1) d.2
      else (d.1, true, d.2)

/-- Rng state after `k` candidate draws of the attempt loop. -/
def rngAfterDraws (P : Prims) (lay : RandomLayout) (rng : Rng) : Nat → Rng
  | 0 => rng
  | k + 1 => (drawPoint P lay (rngAfterDraws P lay rng k)).2

/-- The point produced by the `k`-th (0-based) candidate draw of the
attempt loop started at `rng`. -/
def nthDrawPoint (P : Prims) (lay : RandomLayout) (rng : Rng) (k : Nat) : ℚ × ℚ :=
  (drawPoint P lay (rngAfterDraws P lay rng k)).1

/-- The attempt budget of `_layout_instances` (`max_attempts = 100`). -/
def maxAttempts : Nat := 100

/-- The `for i in range(layout.count)` loop of the random branch: `i` is
the running instance index (used for the name suffix), `remaining` the
number of instances still to produce. -/
def randGo (P : Prims) (lay : RandomLayout) :
    Nat → Nat → List (ℚ × ℚ) → Rng → List InstanceSpec
  | _, 0, _, _ => []
  | i, rem + 1, placed, rng =>
      let res := attemptLoop P lay placed maxAttempts rng
      let placed' := if res.2.1 then placed ++ [res.1] else placed
      let yawAndRng :=
        if lay.random_yaw then Rng.next P res.2.2 else (0, res.2.2)
      ⟨⟨(res.1.1, res.1.2, lay.center.2.2), yawAndRng.1, 0, 0⟩,
        some (toString i)⟩
        :: randGo P lay (i + 1) rem placed' yawAndRng.2

/-- Random expansion with a fresh `random.Random(seed)`. -/
def randInstances (P : Prims) (lay : RandomLayout) (seed : Int) : List InstanceSpec :=
  randGo P lay 0 lay.count [] ⟨seed, 0⟩

/-- Model of `_layout_instances(obj, catalog, seed)`: explicit instances
pass through; no layout gives a single origin instance; grid and random
layouts expand with a random generator freshly seeded from `seed`.  The
catalog argument is carried but never read, as in the source. -/
def layoutInstances (P : Prims) (obj : ObjectSpec) (catalog : AssetCatalog)
    (seed : Int) : List InstanceSpec :=
  match obj.instances with
  | some insts => insts
  | none =>
      match obj.layout with
      | none => [⟨⟨(0, 0, 0), 0, 0, 0⟩, none⟩]
      | some (Layout.grid g) => gridInstances P g seed
      | some (Layout.rand r) => randInstances P r seed

/-! ### XML element trees (`xml.etree.ElementTree` as used by the exporter)

Elements carry a tag, an ordered attribute list (ElementTree preserves
insertion order, and `set` on an existing key updates in place), and
ordered children.  Text nodes are not modelled: the exporter never reads
or writes element text. -/

inductive XmlElem where
  | mk (tag : String) (attrs : List (String × String)) (children : List XmlElem)
  deriving Repr

def XmlElem.tag : XmlElem → String
  | .mk t _ _ => t

def XmlElem.attrs : XmlElem → List (String × String)
  | .mk _ a _ => a

def XmlElem.children : XmlElem → List XmlElem
  | .mk _ _ cs => cs

/-- Model of `elem.get(key)` / `key in elem.attrib`. -/
def getAttr (e : XmlElem) (key : String) : Option String :=
  (e.attrs.find? (fun kv => kv.1 == key)).map (fun kv => kv.2)

/-- Model of `root.find(tag)`: first child with the given tag. -/
def findChild (e : XmlElem) (t : String) : Option XmlElem :=
  e.children.find? (fun c => c.tag == t)

mutual

/-- Every value of a `name` attribute in the subtree, in walk order
(the key set of the `name_map` built by `collect_names`). -/
def declaredNames : XmlElem → List String
  | .mk _ attrs cs =>
      (match attrs.find? (fun kv => kv.1 == "name") with
       | some kv => [kv.2]
       | none => []) ++ declaredNamesL cs

/-- List version of `declaredNames` for the recursive walk. -/
def declaredNamesL : List XmlElem → List String
  | [] => []
  | c :: cs => declaredNames c ++ declaredNamesL cs

end

/-- The reference-bearing attribute keys rewritten by `rename_recursive`. -/
def refAttrKeys : List String :=
  ["site", "material", "mesh", "texture", "class", "childclass"]

/-- Attribute rewriting of `rename_recursive` on one attribute pair: the
`name` attribute and each reference attribute are prefixed when their
value is a collected name; everything else is untouched.  `set` on an
existing key keeps its position, so a positional map is exact. -/
def renameAttr (names : List String) (pfx : String)
    (kv : String × String) : String × String :=
  if kv.1 == "name" && names.contains kv.2 then (kv.1, pfx ++ "_" ++ kv.2)
  else if refAttrKeys.contains kv.1 && names.contains kv.2 then
    (kv.1, pfx ++ "_" ++ kv.2)
  else kv

mutual

/-- Model of `rename_recursive`: rewrite this element's attributes and
recurse into the children. -/
def renameElem (names : List String) (pfx : String) : XmlElem → XmlElem
  | .mk t attrs cs => .mk t (attrs.map (renameAttr names pfx)) (renameElemL names pfx cs)

/-- List version of `renameElem` for the recursive walk. -/
def renameElemL (names : List String) (pfx : String) : List XmlElem → List XmlElem
  | [] => []
  | c :: cs => renameElem names pfx c :: renameElemL names pfx cs

end

/-- The names collected by the first pass of `_load_asset_content` on a
`<mujoco>` root: all declared names of the `asset`, `worldbody` and
`sensor` sections (each section element included, when present). -/
def sectionNames (root : XmlElem) : List String :=
  (match findChild root "asset" with
   | some s => declaredNames s
   | none => []) ++
  (match findChild root "worldbody" with
   | some s => declaredNames s
   | none => []) ++
  (match findChild root "sensor" with
   | some s => declaredNames s
   | none => [])

/-! ### Fragment loading (`_load_asset_content`) -/

/-- State of one fragment file after reading, comment stripping and
parsing: the file may be blank, fail to parse (`ET.ParseError`), or parse
to a root element. -/
inductive FileContent where
  | emptyContent
  | malformed
  | parsed (root : XmlElem)
  deriving Repr

/-- The filesystem as seen by the compiler: fragment path to file state,
`none` when the file is missing (`Path.read_text` raises). -/
def FileSys : Type := String → Option FileContent

/-- The errors `scene_to_mjcf` can raise: `AssetNotFoundError` from
catalog lookups and `FileNotFoundError` from `read_text`. -/
inductive CompileErr where
  | assetNotFound (aid : String) (suggestions : List String)
  | fileNotFound (path : String)
  deriving Repr, DecidableEq

/-- The three element lists `_load_asset_content` returns. -/
structure AssetContent where
  worldbody : List XmlElem
  sensors : List XmlElem
  assets : List XmlElem
  deriving Repr

/-- Model of `_load_asset_content(mjcf_path, prefix)`: a missing file is a
raised error; blank or unparsable content yields the empty result (the
`ET.ParseError` handler returns early); a `<mujoco>` root has its
`asset` / `worldbody` / `sensor` section children extracted and renamed;
any other root is renamed whole into the worldbody list. -/
def loadAssetContent (fs : FileSys) (path : String) (pfx : String) :
    Except CompileErr AssetContent :=
  match fs path with
  | none => .error (.fileNotFound path)
  | some .emptyContent => .ok ⟨[], [], []⟩
  | some .malformed => .ok ⟨[], [], []⟩
  | some (.parsed root) =>
      if root.tag == "mujoco" then
        let names := sectionNames root
        let assetChildren :=
          match findChild root "asset" with
          | some s => renameElemL names pfx s.children
          | none => []
        let wbChildren :=
          match findChild root "worldbody" with
          | some s => renameElemL names pfx s.children
          | none => []
        let sensorChildren :=
          match findChild root "sensor" with
          | some s => renameElemL names pfx s.children
          | none => []
        .ok ⟨wbChildren, sensorChildren, assetChildren⟩
      else
        .ok ⟨[renameElem (declaredNames root) pfx root], [], []⟩

/-! ### Document assembly (`scene_to_mjcf`) -/

/-- Model of `catalog.get(asset_id)` (and `get_path`, which fails under
exactly the same condition): the manifest, or `AssetNotFoundError` with
suggestions. -/
def catalogGet (c : AssetCatalog) (aid : String) : Except CompileErr AssetManifest :=
  match lookupId c aid with
  | some m => .ok m
  | none => .error (.assetNotFound aid (findSimilar c aid))

/-- The fragment path of an asset: its folder joined with the manifest's
`mjcf_include` (the `(path / manifest.mjcf_include).resolve()` of the
source). -/
def fileKeyOf (m : AssetManifest) : String := m.path ++ "/" ++ m.mjcf_include

/-- Deterministic rendering of one rational, standing for Python's
`f"{v:.4g}"`; no claim depends on the digits, only on the rendering being
a fixed function of the value. -/
def qstr (v : ℚ) : String := toString v

/-- Model of `_format_vec`. -/
def formatVec (values : List ℚ) : String :=
  String.intercalate " " (values.map qstr)

/-- `_format_vec` on a 3-vector. -/
def formatVec3 (v : ℚ × ℚ × ℚ) : String := formatVec [v.1, v.2.1, v.2.2]

/-- Model of `_compute_look_at_euler`. -/
def lookAtEuler (P : Prims) (pos target : ℚ × ℚ × ℚ) : ℚ × ℚ × ℚ :=
  let dx := target.1 - pos.1
  let dy := target.2.1 - pos.2.1
  let dz := target.2.2 - pos.2.2
  let yaw := P.atan2DegQ dy dx
  let pitch := - P.atan2DegQ dz (P.sqrtQ (dx * dx + dy * dy))
  (0, pitch, yaw)

/-- The `euler` attribute is set only when some Euler angle is non-zero
(`_to_euler_deg` returns `(roll, pitch, yaw)`). -/
def eulerAttrs (p : Pose) : List (String × String) :=
  if p.roll_deg ≠ 0 ∨ p.pitch_deg ≠ 0 ∨ p.yaw_deg ≠ 0 then
    [("euler", formatVec [p.roll_deg, p.pitch_deg, p.yaw_deg])]
  else []

/-- The synthetic default light added when the scene declares none. -/
def defaultLightElem : XmlElem :=
  .mk "light"
    [("name", "default_light"), ("pos", "0 0 10"), ("dir", "0 0 -1"),
     ("diffuse", "1 1 1")] []

/-- One `<light>` element from a `LightSpec`, attributes in the source's
`set` order; `dir` present exactly when a direction was given, the
`directional` flag exactly for directional lights. -/
def mkLight (l : LightSpec) : XmlElem :=
  .mk "light"
    ([("name", l.name), ("pos", formatVec3 l.position)] ++
      (match l.direction with
       | some d => [("dir", formatVec3 d)]
       | none => []) ++
      [("diffuse", formatVec3 l.diffuse), ("specular", formatVec3 l.specular)] ++
      (if l.type == "directional" then [("directional", "true")] else [])) []

/-- The light elements appended to the worldbody: the scene's lights, or
the single default light when none were specified. -/
def lightElems (scene : SceneSpec) : List XmlElem :=
  if scene.lights.isEmpty then [defaultLightElem] else scene.lights.map mkLight

/-- One `<camera>` element from a `CameraSpec`: a look-at target always
produces an `euler` attribute; otherwise the pose's Euler angles are used
and emitted only when non-zero. -/
def mkCamera (P : Prims) (cam : CameraSpec) : XmlElem :=
  .mk "camera"
    ([("name", cam.name), ("pos", formatVec3 cam.pose.position),
      ("fovy", qstr cam.fovy)] ++
      (match cam.target with
       | some t => [("euler", formatVec3 (lookAtEuler P cam.pose.position t))]
       | none => eulerAttrs cam.pose)) []

/-- The body name chosen for instance `idx`: the explicit suffix when
the instance carries a truthy one (`if inst.name_suffix:` — an empty
string is falsy, like `None`), else the running index. -/
def bodyNameOf (base : String) (idx : Nat) (inst : InstanceSpec) : String :=
  match inst.name_suffix with
  | some sfx =>
      if sfx == "" then base ++ "_" ++ toString idx else base ++ "_" ++ sfx
  | none => base ++ "_" ++ toString idx

/-- The effective base name of an object: Python's
`obj.name or obj.asset_id` (an empty string name is falsy). -/
def effectiveBase (obj : ObjectSpec) : String :=
  match obj.name with
  | some n => if n == "" then obj.asset_id else n
  | none => obj.asset_id

/-- Monadic map over `Except`, failing at the first error exactly like
the sequential Python loop. -/
def exceptMapM (f : α → Except CompileErr β) : List α → Except CompileErr (List β)
  | [] => .ok []
  | a :: as => do
      let b ← f a
      let bs ← exceptMapM f as
      .ok (b :: bs)

/-- One instance of one object: load and inline the fragment under a body
whose attributes are name, position and the optional non-zero Euler
angles; the fragment's asset and sensor elements are passed up. -/
def instanceBody (fs : FileSys) (fileKey : String) (base : String)
    (ienum : Nat × InstanceSpec) :
    Except CompileErr (XmlElem × List XmlElem × List XmlElem) := do
  let bname := bodyNameOf base ienum.1 ienum.2
  let content ← loadAssetContent fs fileKey bname
  .ok (XmlElem.mk "body"
        ([("name", bname), ("pos", formatVec3 ienum.2.pose.position)] ++
          eulerAttrs ienum.2.pose)
        content.worldbody,
      content.assets, content.sensors)

/-- One object of the scene: resolve the manifest, expand the layout, and
produce one body per instance (in instance order) plus the accumulated
asset and sensor elements. -/
def processObj (P : Prims) (fs : FileSys) (catalog : AssetCatalog) (seed : Int)
    (obj : ObjectSpec) :
    Except CompileErr (List XmlElem × List XmlElem × List XmlElem) := do
  let m ← catalogGet catalog obj.asset_id
  let insts := layoutInstances P obj catalog seed
  let results ← exceptMapM (instanceBody fs (fileKeyOf m) (effectiveBase obj))
    insts.enum
  .ok (results.map (fun r => r.1),
       (results.map (fun r => r.2.1)).flatten,
       (results.map (fun r => r.2.2)).flatten)

/-- The fixed `<compiler>` element. -/
def compilerElem : XmlElem :=
  .mk "compiler" [("angle", "degree"), ("coordinate", "local")] []

/-- The `<option>` element: physics settings plus the environment's
gravity, attributes in the source's `set` order. -/
def optionElem (scene : SceneSpec) : XmlElem :=
  .mk "option"
    [("timestep", qstr scene.physics.timestep),
     ("iterations", toString scene.physics.iterations),
     ("solver", scene.physics.solver),
     ("integrator", scene.physics.integrator),
     ("gravity", formatVec3 scene.environment.gravity)] []

/-- The fixed `<visual>` element with its headlight. -/
def visualElem : XmlElem :=
  .mk "visual" []
    [.mk "headlight" [("diffuse", "0.6 0.6 0.6"), ("ambient", "0.3 0.3 0.3")] []]

/-- The built-in checker texture always placed in the asset section. -/
def gridTextureElem : XmlElem :=
  .mk "texture"
    [("name", "grid"), ("type", "2d"), ("builtin", "checker"),
     ("width", "512"), ("height", "512"), ("rgb1", "0.2 0.3 0.4"),
     ("rgb2", "0.1 0.2 0.3")] []

/-- The built-in material always placed in the asset section; its
`texture` reference is introduced by the compiler itself. -/
def gridMaterialElem : XmlElem :=
  .mk "material"
    [("name", "grid_mat"), ("texture", "grid"), ("texrepeat", "8 8"),
     ("reflectance", "0.2")] []

/-- Model of `scene_to_mjcf` up to serialization: the element tree of the
compiled document.  Children appear exactly in the source's append order:
`compiler`, `option`, `visual`, `asset`, `worldbody`, then the `sensor`
section only when sensors were collected; inside the worldbody, the
lights are appended first, then the environment body, then one body per
object instance in declared order, then the cameras. -/
def buildDoc (P : Prims) (fs : FileSys) (scene : SceneSpec)
    (catalog : AssetCatalog) (seed : Int) : Except CompileErr XmlElem := do
  let envM ← catalogGet catalog scene.environment.asset_id
  let envPfx := "env_" ++ scene.environment.asset_id
  let envContent ← loadAssetContent fs (fileKeyOf envM) envPfx
  let envBody := XmlElem.mk "body"
    [("name", envPfx), ("pos", "0 0 0")] envContent.worldbody
  let objRes ← exceptMapM (processObj P fs catalog seed) scene.objects
  let objBodies := (objRes.map (fun r => r.1)).flatten
  let objAssets := (objRes.map (fun r => r.2.1)).flatten
  let objSensors := (objRes.map (fun r => r.2.2)).flatten
  let camEs := scene.cameras.map (mkCamera P)
  let allSensors := envContent.sensors ++ objSensors
  let assetE := XmlElem.mk "asset" []
    ([gridTextureElem, gridMaterialElem] ++ envContent.assets ++ objAssets)
  let worldbodyE := XmlElem.mk "worldbody" []
    (lightElems scene ++ [envBody] ++ objBodies ++ camEs)
  .ok (XmlElem.mk "mujoco" [("model", scene.name)]
    ([compilerElem, optionElem scene, visualElem, assetE, worldbodyE] ++
      (if allSensors.isEmpty then [] else [XmlElem.mk "sensor" [] allSensors])))

/-! ### Serialization

`ET.tostring` followed by minidom's pretty printing and the exporter's
line cleanup is a fixed deterministic function of the element tree, so it
is modelled by one deterministic serializer; byte identity of the output
is then tree identity composed with a function. -/

/-- Attribute rendering in stored order. -/
def attrsStr (attrs : List (String × String)) : String :=
  String.join (attrs.map (fun kv => " " ++ kv.1 ++ "=" ++ "\"" ++ kv.2 ++ "\""))

mutual

/-- Deterministic rendering of one element. -/
def serializeElem : XmlElem → String
  | .mk t attrs cs =>
      if cs.isEmpty then "<" ++ t ++ attrsStr attrs ++ " />"
      else "<" ++ t ++ attrsStr attrs ++ ">" ++ serializeChildren cs ++ "</" ++ t ++ ">"

/-- List version of `serializeElem` for the recursive walk. -/
def serializeChildren : List XmlElem → String
  | [] => ""
  | c :: cs => serializeElem c ++ serializeChildren cs

end

/-- Model of `scene_to_mjcf(scene, catalog, seed)`: build the document
tree and serialize it. -/
def sceneToMjcf (P : Prims) (fs : FileSys) (scene : SceneSpec)
    (catalog : AssetCatalog) (seed : Int) : Except CompileErr String :=
  (buildDoc P fs scene catalog seed).map serializeElem

/-! ### Concrete inputs used by witnesses and counterexamples -/

/-- Concrete primitives: zero stream, identity transcendentals. -/
def P0 : Prims := ⟨fun _ _ => 0, fun x => x, fun x => x, fun x => x, fun _ _ => 0⟩

/-- The grid of the spec's example scenario 1. -/
def g0 : GridLayout := ⟨(0, 0, 0), 2, 3, (1, 1), 0⟩

/-- An object carrying the example grid. -/
def obj0 : ObjectSpec := ⟨"crate", none, some (Layout.grid g0), none⟩

/-- An empty catalog (the layout engine never reads it). -/
def cat0 : AssetCatalog := ⟨[]⟩

/-- A random layout whose separation constraint is unsatisfiable once one
point was placed at the center. -/
def lay0 : RandomLayout := ⟨(0, 0, 0), 1, 2, 1, false⟩

/-- An object carrying the random layout `lay0`. -/
def obj1 : ObjectSpec := ⟨"crate", none, some (Layout.rand lay0), none⟩

/-- A second object with a different asset id and display name but the
same grid layout as `obj0`. -/
def obj2 : ObjectSpec := ⟨"barrel", some "b", some (Layout.grid g0), none⟩

/-- An empty filesystem. -/
def fsEmpty : FileSys := fun _ => none

/-- A minimal scene. -/
def scene0 : SceneSpec :=
  ⟨"s", ⟨"orchard", (0, 0, -981/100)⟩, [], [], [],
   ⟨1/500, "Newton", 50, "implicitfast"⟩⟩

/-- Formalization of the sharing condition named by the suggestion claim:
one id contains the other as a substring (case-insensitively), or the two
ids share their first three characters.  Written from the claim's words,
to serve as the hypothesis of the non-emptiness statement. -/
def sharesSubOr3 (q e : String) : Prop :=
  strIn (lowerStr q) (lowerStr e) = true ∨
  strIn (lowerStr e) (lowerStr q) = true ∨
  (3 ≤ (lowerStr q).length ∧ 3 ≤ (lowerStr e).length ∧
    (lowerStr q).toList.take 3 = (lowerStr e).toList.take 3)

/-- A minimal manifest with the given id (and no tags, fallbacks or
semantics). -/
def mkAsset (aid : String) : AssetManifest :=
  ⟨aid, aid, "prop", [], [], "local", [], [], "model.xml", aid⟩

/-- Catalog whose scan order puts a prefix-only match before a substring
match for the query `abcd`. -/
def catC5 : AssetCatalog := ⟨[mkAsset "abcz", mkAsset "abcdef"]⟩

/-- An asset whose id exactly equals the query `crate` and matches
nothing else. -/
def exactAsset : AssetManifest :=
  ⟨"crate", "zzz", "prop", [], [], "local", [], [], "model.xml", "crate"⟩

/-- An asset whose id only partially matches the query `crate` but whose
name matches it exactly. -/
def partialAsset : AssetManifest :=
  ⟨"cratex", "crate", "prop", [], [], "local", [], [], "model.xml", "cratex"⟩

/-- An asset whose id only partially matches the query `crate` and
matches nothing else. -/
def partialPlainAsset : AssetManifest :=
  ⟨"cratex", "qqq", "prop", [], [], "local", [], [], "model.xml", "cratex"⟩

/-- Catalog for the search-ranking counterexample. -/
def catC6 : AssetCatalog := ⟨[exactAsset, partialAsset]⟩

/-- Catalog for the search-ranking witness. -/
def catC6w : AssetCatalog := ⟨[exactAsset, partialPlainAsset]⟩

/-- A local prop that can substitute for `tool`. -/
def toolLocalProp : AssetManifest :=
  ⟨"a", "A", "prop", [], ["tool"], "local", [], [], "m.xml", "a"⟩

/-- A remote vehicle that can substitute for `tool`. -/
def toolRemoteVehicle : AssetManifest :=
  ⟨"b", "B", "vehicle", [], ["tool"], "remote", [], [], "m.xml", "b"⟩

/-- Catalog for the fallback counterexample. -/
def catC9 : AssetCatalog := ⟨[toolLocalProp, toolRemoteVehicle]⟩

/-- A remote prop that can substitute for `tool` (fails the
local-availability test). -/
def toolRemoteProp : AssetManifest :=
  ⟨"r1", "R1", "prop", [], ["tool"], "remote", [], [], "m.xml", "r1"⟩

/-- A local prop that can substitute for `tool`, scanned second. -/
def toolLocalProp2 : AssetManifest :=
  ⟨"a2", "A2", "prop", [], ["tool"], "local", [], [], "m.xml", "a2"⟩

/-- Catalog whose first fallback candidate fails the local test and
whose second passes it. -/
def catC9b : AssetCatalog := ⟨[toolRemoteProp, toolLocalProp2]⟩

/-! ### Name accounting for the compiled document

`applyRen`, `refValuesE`, `sectionChildren` and `fragNames` recompute, on
the spec side, which names and reference values the inlining walk
produces; the claim-level theorems relate them to the document built by
`buildDoc`. -/

/-- The rename applied to one symbol by the `name_map`: prefixed when
collected, untouched otherwise. -/
def applyRen (names : List String) (pfx : String) (n : String) : String :=
  if names.contains n then pfx ++ "_" ++ n else n

mutual

/-- Every value of a reference-bearing attribute in the subtree, in walk
order. -/
def refValuesE : XmlElem → List String
  | .mk _ attrs cs =>
      ((attrs.filter (fun kv => refAttrKeys.contains kv.1)).map (fun kv => kv.2))
        ++ refValuesL cs

/-- List version of `refValuesE` for the recursive walk. -/
def refValuesL : List XmlElem → List String
  | [] => []
  | c :: cs => refValuesE c ++ refValuesL cs

end

/-- Children of the named section of a `<mujoco>` root (empty when the
section is absent). -/
def sectionChildren (root : XmlElem) (t : String) : List XmlElem :=
  match findChild root t with
  | some s => s.children
  | none => []

/-- Every parsed `<mujoco>` fragment of the filesystem has unnamed
section containers (`asset` / `worldbody` / `sensor` elements carrying no
`name` attribute of their own). -/
def FsSectionsUnnamed (fs : FileSys) : Prop :=
  ∀ path root, fs path = some (.parsed root) → root.tag = "mujoco" →
    (∀ s, findChild root "asset" = some s → getAttr s "name" = none) ∧
    (∀ s, findChild root "worldbody" = some s → getAttr s "name" = none) ∧
    (∀ s, findChild root "sensor" = some s → getAttr s "name" = none)

/-- The names (asset section, worldbody section, sensor section) that
inlining the fragment at `path` under `pfx` contributes, computed
directly from the file. -/
def fragNames (fs : FileSys) (path pfx : String) :
    List String × List String × List String :=
  match fs path with
  | none => ([], [], [])
  | some .emptyContent => ([], [], [])
  | some .malformed => ([], [], [])
  | some (.parsed root) =>
      if root.tag == "mujoco" then
        ((declaredNamesL (sectionChildren root "asset")).map
            (applyRen (sectionNames root) pfx),
         (declaredNamesL (sectionChildren root "worldbody")).map
            (applyRen (sectionNames root) pfx),
         (declaredNamesL (sectionChildren root "sensor")).map
            (applyRen (sectionNames root) pfx))
      else
        ([], (declaredNames root).map (applyRen (declaredNames root) pfx), [])

/-- The light names of the compiled worldbody: the scene's lights, or the
synthetic default. -/
def lightNames (scene : SceneSpec) : List String :=
  if scene.lights.isEmpty then ["default_light"] else scene.lights.map (fun l => l.name)

/-- Per instance of one object: the body name and the name contribution
of its inlined fragment. -/
def objFragNames (P : Prims) (fs : FileSys) (catalog : AssetCatalog) (seed : Int)
    (obj : ObjectSpec) : List (String × (List String × List String × List String)) :=
  match lookupId catalog obj.asset_id with
  | none => []
  | some m =>
      (layoutInstances P obj catalog seed).enum.map (fun p =>
        (bodyNameOf (effectiveBase obj) p.1 p.2,
         fragNames fs (fileKeyOf m) (bodyNameOf (effectiveBase obj) p.1 p.2)))

/-- The full expected name list of the compiled document, in document
walk order: built-in asset names, inlined asset-section names
(environment first, then objects per instance), light names, the
environment body and its fragment's worldbody names, instance body names
interleaved with their fragments' worldbody names, camera names, then the
sensor-section names. -/
def expectedDocNames (P : Prims) (fs : FileSys) (scene : SceneSpec)
    (catalog : AssetCatalog) (seed : Int) : List String :=
  let envPfx := "env_" ++ scene.environment.asset_id
  let envFN := match lookupId catalog scene.environment.asset_id with
    | none => ([], [], [])
    | some m => fragNames fs (fileKeyOf m) envPfx
  let objFN := scene.objects.map (objFragNames P fs catalog seed)
  ["grid", "grid_mat"] ++ envFN.1
    ++ (objFN.map (fun l => (l.map (fun q => q.2.1)).flatten)).flatten
    ++ lightNames scene
    ++ [envPfx] ++ envFN.2.1
    ++ (objFN.map (fun l => (l.map (fun q => [q.1] ++ q.2.2.1)).flatten)).flatten
    ++ scene.cameras.map (fun c => c.name)
    ++ envFN.2.2
    ++ (objFN.map (fun l => (l.map (fun q => q.2.2.2)).flatten)).flatten

/-! ### Concrete compiles for witnesses and counterexamples -/

/-- Environment manifest. -/
def envManifest0 : AssetManifest :=
  ⟨"orchard", "Orchard", "environment", [], [], "local", [], [], "model.xml", "orchard"⟩

/-- Crate manifest. -/
def crateManifest : AssetManifest :=
  ⟨"crate", "Crate", "prop", [], [], "local", [], [], "model.xml", "crate"⟩

/-- Catalog holding the environment and the crate. -/
def catC7 : AssetCatalog := ⟨[envManifest0, crateManifest]⟩

/-- A trivial parsed fragment: one unnamed plane under a worldbody. -/
def fragTrivial : XmlElem :=
  .mk "mujoco" [] [.mk "worldbody" [] [.mk "geom" [("type", "plane")] []]]

/-- A fragment whose worldbody section itself carries a name and whose
geom references that name. -/
def fragNamedWB : XmlElem :=
  .mk "mujoco" [] [.mk "worldbody" [("name", "w")] [.mk "geom" [("site", "w")] []]]

/-- Filesystem serving the trivial fragment for both assets. -/
def fs1 : FileSys := fun p =>
  if p == "orchard/model.xml" || p == "crate/model.xml" then
    some (.parsed fragTrivial)
  else none

/-- Filesystem whose environment fragment fails to parse. -/
def fsMal : FileSys := fun p =>
  if p == "orchard/model.xml" then some .malformed else none

/-- Filesystem serving the named-worldbody fragment for the environment. -/
def fsW : FileSys := fun p =>
  if p == "orchard/model.xml" then some (.parsed fragNamedWB) else none

/-- A scene with one declared light and no objects. -/
def sceneC7 : SceneSpec :=
  ⟨"s", ⟨"orchard", (0, 0, -10)⟩, [], [],
   [⟨"sun", "directional", (0, 0, 20), none, (1, 1, 1), (1/2, 1/2, 1/2)⟩],
   ⟨1/500, "Newton", 50, "implicitfast"⟩⟩

/-- A scene with two objects sharing the asset id `crate`, neither with
an explicit name. -/
def sceneC1 : SceneSpec :=
  ⟨"s", ⟨"orchard", (0, 0, -10)⟩,
   [⟨"crate", none, none, none⟩, ⟨"crate", none, none, none⟩],
   [], [], ⟨1/500, "Newton", 50, "implicitfast"⟩⟩

/-- The compiled document of the `sceneC7` compile. -/
def docC7 : XmlElem :=
  (buildDoc P0 fs1 sceneC7 catC7 42).toOption.getD (XmlElem.mk "none" [] [])

/-- The compiled document of the `sceneC1` compile. -/
def docC1 : XmlElem :=
  (buildDoc P0 fs1 sceneC1 catC7 42).toOption.getD (XmlElem.mk "none" [] [])

/-- The compiled document of the named-worldbody compile. -/
def docW : XmlElem :=
  (buildDoc P0 fsW scene0 catC7 42).toOption.getD (XmlElem.mk "none" [] [])

/-! ### Theorems -/

theorem gridGo_length (P : Prims) (g : GridLayout) :
    ∀ (cells : List (Nat × Nat)) (rng : Rng),
      (gridGo P g cells rng).length = cells.length
  | [], _ => rfl
  | (_, _) :: rest, rng => by
      simp only [gridGo, List.length_cons]
      rw [gridGo_length P g rest]

theorem gridGo_getElem? (P : Prims) (g : GridLayout) :
    ∀ (cells : List (Nat × Nat)) (rng : Rng) (n : Nat),
      ((gridGo P g cells rng)[n]?).map (fun i => i.pose.position)
        = (cells[n]?).map (fun rc => gridPos g rc.1 rc.2)
  | [], _, n => by simp [gridGo]
  | (r, c) :: rest, rng, 0 => by simp [gridGo]
  | (r, c) :: rest, rng, n + 1 => by
      simp only [gridGo, List.getElem?_cons_succ]
      exact gridGo_getElem? P g rest _ n

theorem flatMap_getElem?_const {α β : Type} (l : List α) (f : α → List β)
    (k : Nat) (hk : ∀ a ∈ l, (f a).length = k) {i j : Nat} (hj : j < k) :
    (l.flatMap f)[i * k + j]? = l[i]?.bind fun a => (f a)[j]? := by
  induction l generalizing i with
  | nil => simp
  | cons a t ih =>
      have ha : (f a).length = k := hk a (by simp)
      cases i with
      | zero =>
          rw [List.flatMap_cons, Nat.zero_mul, Nat.zero_add,
            List.getElem?_append_left (by rw [ha]; exact hj)]
          simp
      | succ i =>
          have hidx : (i + 1) * k + j = (f a).length + (i * k + j) := by
            rw [ha]; ring
          rw [List.flatMap_cons, hidx,
            List.getElem?_append_right (Nat.le_add_right _ _),
            Nat.add_sub_cancel_left]
          rw [ih (fun b hb => hk b (by simp [hb]))]
          simp

theorem gridCells_getElem? {rows cols row col : Nat}
    (hr : row < rows) (hc : col < cols) :
    (gridCells rows cols)[row * cols + col]? = some (row, col) := by
  unfold gridCells
  rw [flatMap_getElem?_const _ _ cols (by intro a _; simp) hc,
    List.getElem?_range hr]
  simp [List.getElem?_range hc]

theorem gridCells_length (rows cols : Nat) :
    (gridCells rows cols).length = rows * cols := by
  unfold gridCells
  have hfun : (List.length ∘ fun row => List.map (fun col => (row, col)) (List.range cols))
      = fun _ : Nat => cols := by
    funext r; simp
  rw [List.length_flatMap, hfun, List.map_const', List.length_range,
    List.sum_const_nat]

/-- C4: an `ObjectSpec` with a `GridLayout` (`rows ≥ 1`, `cols ≥ 1`)
expands to exactly `rows × cols` instances in row-major order (row outer,
column inner), the instance at `(row, col)` sitting at index
`row·cols + col` with position
`(origin.x + col·spacing.x, origin.y + row·spacing.y, origin.z)`. -/
theorem grid_layout_rowmajor (P : Prims) (catalog : AssetCatalog)
    (obj : ObjectSpec) (g : GridLayout) (seed : Int)
    (hinst : obj.instances = none) (hlay : obj.layout = some (Layout.grid g))
    (hrows : 1 ≤ g.rows) (hcols : 1 ≤ g.cols) :
    (layoutInstances P obj catalog seed).length = g.rows * g.cols ∧
    ∀ row col : Nat, row < g.rows → col < g.cols →
      ((layoutInstances P obj catalog seed)[row * g.cols + col]?).map
          (fun i => i.pose.position)
        = some (g.origin.1 + (col : ℚ) * g.spacing.1,
                g.origin.2.1 + (row : ℚ) * g.spacing.2,
                g.origin.2.2) := by
  have hL : layoutInstances P obj catalog seed = gridInstances P g seed := by
    simp [layoutInstances, hinst, hlay]
  constructor
  · rw [hL]; unfold gridInstances; rw [gridGo_length, gridCells_length]
  · intro row col hr hc
    rw [hL]; unfold gridInstances
    rw [gridGo_getElem?, gridCells_getElem? hr hc]
    simp [gridPos]

/-- Witness for C4 at the spec's example scenario 1: a 2×3 grid with unit
spacing from the origin; the six positions come out row-major. -/
theorem grid_layout_rowmajor_witness :
    (layoutInstances P0 obj0 cat0 42).length = 2 * 3 ∧
    (layoutInstances P0 obj0 cat0 42).map (fun i => i.pose.position)
      = [(0, 0, 0), (1, 0, 0), (2, 0, 0), (0, 1, 0), (1, 1, 0), (2, 1, 0)] := by
  have h := grid_layout_rowmajor P0 cat0 obj0 g0 42 rfl rfl
    (by decide) (by decide)
  refine ⟨h.1, ?_⟩
  norm_num [layoutInstances, obj0, g0, gridInstances, gridCells, gridGo,
    gridPos, P0, List.range_succ]

theorem randGo_length (P : Prims) (lay : RandomLayout) :
    ∀ (i rem : Nat) (placed : List (ℚ × ℚ)) (rng : Rng),
      (randGo P lay i rem placed rng).length = rem
  | _, 0, _, _ => rfl
  | i, rem + 1, placed, rng => by
      simp only [randGo, List.length_cons]
      rw [randGo_length]

theorem rngAfterDraws_shift (P : Prims) (lay : RandomLayout) (rng : Rng) :
    ∀ k : Nat, rngAfterDraws P lay rng (k + 1)
      = rngAfterDraws P lay (drawPoint P lay rng).2 k
  | 0 => rfl
  | k + 1 => by
      show (drawPoint P lay (rngAfterDraws P lay rng (k + 1))).2 = _
      rw [rngAfterDraws_shift P lay rng k]
      rfl

theorem nthDrawPoint_shift (P : Prims) (lay : RandomLayout) (rng : Rng) (k : Nat) :
    nthDrawPoint P lay rng (k + 1) = nthDrawPoint P lay (drawPoint P lay rng).2 k := by
  unfold nthDrawPoint
  rw [rngAfterDraws_shift]

theorem attemptLoop_all_rejected (P : Prims) (lay : RandomLayout)
    (placed : List (ℚ × ℚ)) :
    ∀ (n : Nat) (rng : Rng), 1 ≤ n →
      (∀ k, k < n → rejected P lay placed (nthDrawPoint P lay rng k) = true) →
      attemptLoop P lay placed n rng
        = (nthDrawPoint P lay rng (n - 1), false, rngAfterDraws P lay rng n)
  | 0, _, h1, _ => absurd h1 (by decide)
  | 1, rng, _, hrej => by
      have h0 := hrej 0 (by decide)
      rw [show nthDrawPoint P lay rng 0 = (drawPoint P lay rng).1 from rfl] at h0
      simp only [attemptLoop]
      simp [h0]
      exact ⟨rfl, rfl⟩
  | n + 2, rng, _, hrej => by
      have h0 := hrej 0 (Nat.succ_le_succ (Nat.zero_le _))
      rw [show nthDrawPoint P lay rng 0 = (drawPoint P lay rng).1 from rfl] at h0
      simp only [attemptLoop]
      simp only [h0, if_true]
      rw [attemptLoop_all_rejected P lay placed (n + 1) (drawPoint P lay rng).2
        (Nat.le_add_left 1 n)
        (fun k hk => by
          rw [← nthDrawPoint_shift]
          exact hrej (k + 1) (Nat.succ_lt_succ hk))]
      rw [← nthDrawPoint_shift, ← rngAfterDraws_shift]
      exact rfl

/-- C3: an `ObjectSpec` with a `RandomLayout` (`radius > 0`, `count ≥ 1`,
`min_separation ≥ 0`) always expands to exactly `count` instances,
whatever the separation constraint allowed; and when all 100 attempts for
a point are rejected, the loop yields the last (100th) attempted point,
unaccepted into the placed list, and the produced instance carries
exactly that point as its position. -/
theorem random_layout_count_and_last_attempt (P : Prims)
    (catalog : AssetCatalog) (obj : ObjectSpec) (lay : RandomLayout) (seed : Int)
    (hinst : obj.instances = none) (hlay : obj.layout = some (Layout.rand lay))
    (hrad : 0 < lay.radius) (hcount : 1 ≤ lay.count)
    (hsep : 0 ≤ lay.min_separation) :
    (layoutInstances P obj catalog seed).length = lay.count ∧
    (∀ (placed : List (ℚ × ℚ)) (rng : Rng),
      (∀ k, k < maxAttempts →
        rejected P lay placed (nthDrawPoint P lay rng k) = true) →
      attemptLoop P lay placed maxAttempts rng
        = (nthDrawPoint P lay rng (maxAttempts - 1), false,
            rngAfterDraws P lay rng maxAttempts)) ∧
    (∀ (i rem : Nat) (placed : List (ℚ × ℚ)) (rng : Rng),
      ((randGo P lay i (rem + 1) placed rng).head?).map (fun inst => inst.pose.position)
        = some ((attemptLoop P lay placed maxAttempts rng).1.1,
                (attemptLoop P lay placed maxAttempts rng).1.2,
                lay.center.2.2)) := by
  refine ⟨?_, ?_, ?_⟩
  · simp only [layoutInstances, hinst, hlay]
    unfold randInstances
    rw [randGo_length]
  · intro placed rng hrej
    exact attemptLoop_all_rejected P lay placed maxAttempts rng (by decide) hrej
  · intro i rem placed rng
    simp [randGo]

theorem drawPoint_P0_lay0 (rng : Rng) : (drawPoint P0 lay0 rng).1 = (0, 0) := by
  simp [drawPoint, P0, lay0, Rng.next]

theorem nthDrawPoint_P0_lay0 (rng : Rng) (k : Nat) :
    nthDrawPoint P0 lay0 rng k = (0, 0) := by
  unfold nthDrawPoint
  exact drawPoint_P0_lay0 _

/-- Witness for C3: a two-point layout with `min_separation = 1` and a
constant zero draw stream; once `(0,0)` is placed, every one of the 100
attempts for the next point is rejected and the loop still yields the
last attempted point. -/
theorem random_layout_count_and_last_attempt_witness :
    (layoutInstances P0 obj1 cat0 7).length = 2 ∧
    attemptLoop P0 lay0 [(0, 0)] maxAttempts ⟨7, 0⟩
      = (nthDrawPoint P0 lay0 ⟨7, 0⟩ (maxAttempts - 1), false,
          rngAfterDraws P0 lay0 ⟨7, 0⟩ maxAttempts) := by
  have h := random_layout_count_and_last_attempt P0 cat0 obj1 lay0 7 rfl rfl
    (by decide) (by decide) (by decide)
  refine ⟨h.1, ?_⟩
  refine h.2.1 [(0, 0)] ⟨7, 0⟩ ?_
  intro k hk
  rw [nthDrawPoint_P0_lay0]
  simp [rejected, tooClose, lay0, P0]

/-- C10: layout expansion re-creates its random generator from the same
top-level seed on every call (`random.Random(seed)` inside
`_layout_instances`, invoked with the compile's single `seed` for every
object of the scene), so two objects with equal layout fields expand to
element-wise identical pose lists. -/
theorem equal_layouts_equal_poses (P : Prims) (catalog : AssetCatalog)
    (o1 o2 : ObjectSpec) (l : Layout) (seed : Int)
    (h1 : o1.instances = none) (h2 : o2.instances = none)
    (hl1 : o1.layout = some l) (hl2 : o2.layout = some l) :
    (layoutInstances P o1 catalog seed).map (fun i => i.pose)
      = (layoutInstances P o2 catalog seed).map (fun i => i.pose) := by
  simp only [layoutInstances, h1, h2, hl1, hl2]

/-- Witness for C10: two objects with different asset ids and names but
the same grid layout expand to the same pose list. -/
theorem equal_layouts_equal_poses_witness :
    (layoutInstances P0 obj0 cat0 42).map (fun i => i.pose)
      = (layoutInstances P0 obj2 cat0 42).map (fun i => i.pose) :=
  equal_layouts_equal_poses P0 cat0 obj0 obj2 (Layout.grid g0) 42 rfl rfl rfl rfl

/-- C2: compilation is deterministic.  In the embedding every effect of
`scene_to_mjcf` is an explicit input — the filesystem (fragment file
contents), the catalog, the scene and the seed; the random source is
re-derived from `seed` inside each call and no other state exists, so two
calls with identical arguments return byte-identical strings. -/
theorem compile_deterministic (P : Prims) (fs1 fs2 : FileSys)
    (s1 s2 : SceneSpec) (c1 c2 : AssetCatalog) (seed1 seed2 : Int)
    (hfs : fs1 = fs2) (hs : s1 = s2) (hc : c1 = c2) (hseed : seed1 = seed2) :
    sceneToMjcf P fs1 s1 c1 seed1 = sceneToMjcf P fs2 s2 c2 seed2 := by
  subst hfs hs hc hseed
  rfl

/-- Witness for C2 at a concrete scene, catalog, filesystem and seed. -/
theorem compile_deterministic_witness :
    sceneToMjcf P0 fsEmpty scene0 cat0 42 = sceneToMjcf P0 fsEmpty scene0 cat0 42 :=
  compile_deterministic P0 fsEmpty fsEmpty scene0 scene0 cat0 cat0 42 42
    rfl rfl rfl rfl

theorem charsStart_take (l : List Char) : ∀ k : Nat, charsStart (l.take k) l = true := by
  induction l with
  | nil => intro k; cases k <;> rfl
  | cons a t ih =>
      intro k
      cases k with
      | zero => rfl
      | succ k => simp [charsStart, ih]

theorem charsStart_nil_imp {n : List Char} (h : charsStart n [] = true) : n = [] := by
  cases n with
  | nil => rfl
  | cons a t => simp [charsStart] at h

theorem charsSub_of_charsStart {n h : List Char} (hs : charsStart n h = true) :
    charsSub n h = true := by
  cases h with
  | nil =>
      have := charsStart_nil_imp hs
      subst this
      rfl
  | cons b t => simp [charsSub, hs]

theorem similarPred_of_shares {q e : String} (h : sharesSubOr3 q e) :
    similarPred (lowerStr q) e = true := by
  rcases h with h1 | h1 | ⟨h3q, _h3e, heq⟩
  · simp [similarPred, h1]
  · simp [similarPred, h1]
  · by_cases hlen : 3 < (lowerStr q).length
    · have hstart : strStarts (lowerStr e) (take3 (lowerStr q)) = true := by
        show charsStart (take3 (lowerStr q)).toList (lowerStr e).toList = true
        have htl : (take3 (lowerStr q)).toList = (lowerStr q).toList.take 3 := rfl
        rw [htl, heq]
        exact charsStart_take _ 3
      simp [similarPred, hlen, hstart]
    · have hl3 : (lowerStr q).length = 3 := by omega
      have hfull : (lowerStr q).toList.take 3 = (lowerStr q).toList := by
        apply List.take_of_length_le
        show (lowerStr q).toList.length ≤ 3
        have : (lowerStr q).toList.length = (lowerStr q).length := rfl
        omega
      have hstart : charsStart (lowerStr q).toList (lowerStr e).toList = true := by
        rw [← hfull, heq]
        exact charsStart_take _ 3
      have hsub : strIn (lowerStr q) (lowerStr e) = true :=
        charsSub_of_charsStart hstart
      simp [similarPred, hsub]

/-- C5 (amended): `get` on an unknown id raises `AssetNotFoundError`
carrying the suggestion list, which has at most 3 entries and is
non-empty whenever some catalog entry shares a substring (either
direction) or a 3-character prefix with the queried id.  The suggestions
appear in catalog scan order (each entry tested substring-first, then
prefix), not globally ordered substring-before-prefix. -/
theorem get_unknown_id_suggestions (c : AssetCatalog) (aid : String)
    (habsent : lookupId c aid = none) :
    catalogGet c aid = .error (.assetNotFound aid (findSimilar c aid)) ∧
    (findSimilar c aid).length ≤ 3 ∧
    ((∃ m ∈ c.assets, sharesSubOr3 aid m.asset_id) → findSimilar c aid ≠ []) := by
  refine ⟨by simp [catalogGet, habsent], ?_, ?_⟩
  · unfold findSimilar
    rw [List.length_take]
    exact min_le_left _ _
  · rintro ⟨m, hm, hshare⟩
    unfold findSimilar
    intro hnil
    rw [List.take_eq_nil_iff] at hnil
    rcases hnil with h30 | hfil
    · exact absurd h30 (by decide)
    · have hmem : m.asset_id ∈ (c.assets.map (fun m => m.asset_id)).filter
          (fun e => similarPred (lowerStr aid) e) := by
        rw [List.mem_filter]
        exact ⟨List.mem_map_of_mem _ hm, similarPred_of_shares hshare⟩
      rw [hfil] at hmem
      exact absurd hmem (List.not_mem_nil _)

/-- Witness for C5 (amended): an unknown id sharing a 3-character prefix
with one catalog entry yields a non-empty suggestion list of at most 3
entries inside the raised error. -/
theorem get_unknown_id_suggestions_witness :
    catalogGet catC5 "abcq" = .error (.assetNotFound "abcq" (findSimilar catC5 "abcq")) ∧
    (findSimilar catC5 "abcq").length ≤ 3 ∧
    findSimilar catC5 "abcq" ≠ [] := by
  have h := get_unknown_id_suggestions catC5 "abcq" (by decide)
  exact ⟨h.1, h.2.1, h.2.2 ⟨mkAsset "abcdef", by decide,
    Or.inr (Or.inr ⟨by decide, by decide, by decide⟩)⟩⟩

/-- Counterexample to C5 as stated: for the query `abcd` against a
catalog scanned as `[abcz, abcdef]`, the suggestion list is
`[abcz, abcdef]`; `abcz` is only a shared-3-character-prefix match while
`abcdef` is a substring match, so a prefix suggestion precedes a
substring suggestion, contradicting the claimed ordering. -/
theorem get_suggestions_order_counterexample :
    findSimilar catC5 "abcd" = ["abcz", "abcdef"] ∧
    strIn (lowerStr "abcd") (lowerStr "abcdef") = true ∧
    strIn (lowerStr "abcd") (lowerStr "abcz") = false ∧
    strIn (lowerStr "abcz") (lowerStr "abcd") = false ∧
    (lowerStr "abcd").toList.take 3 = (lowerStr "abcz").toList.take 3 := by
  refine ⟨?_, ?_, ?_, ?_, ?_⟩ <;> decide

theorem mem_insertDesc {x y : Nat × AssetManifest} {l : List (Nat × AssetManifest)} :
    y ∈ insertDesc x l ↔ y = x ∨ y ∈ l := by
  induction l with
  | nil => simp [insertDesc]
  | cons a t ih =>
      by_cases h : a.1 < x.1
      · simp [insertDesc, h]
      · simp [insertDesc, h, ih]
        tauto

theorem insertDesc_pairwise {x : Nat × AssetManifest} {l : List (Nat × AssetManifest)}
    (h : l.Pairwise (fun a b => b.1 ≤ a.1)) :
    (insertDesc x l).Pairwise (fun a b => b.1 ≤ a.1) := by
  induction l with
  | nil => simp [insertDesc]
  | cons a t ih =>
      rcases List.pairwise_cons.1 h with ⟨ha, ht⟩
      by_cases hc : a.1 < x.1
      · rw [insertDesc, if_pos hc]
        refine List.pairwise_cons.2 ⟨?_, h⟩
        intro z hz
        rcases List.mem_cons.1 hz with rfl | hz
        · exact le_of_lt hc
        · exact le_trans (ha z hz) (le_of_lt hc)
      · rw [insertDesc, if_neg hc]
        refine List.pairwise_cons.2 ⟨?_, ih ht⟩
        intro z hz
        rcases mem_insertDesc.1 hz with rfl | hz
        · exact le_of_not_lt hc
        · exact ha z hz

theorem foldl_insertDesc_pairwise (l acc : List (Nat × AssetManifest))
    (hacc : acc.Pairwise (fun a b => b.1 ≤ a.1)) :
    (List.foldl (fun acc x => insertDesc x acc) acc l).Pairwise
      (fun a b => b.1 ≤ a.1) := by
  induction l generalizing acc with
  | nil => exact hacc
  | cons a t ih => exact ih _ (insertDesc_pairwise hacc)

theorem sortDesc_pairwise (l : List (Nat × AssetManifest)) :
    (sortDesc l).Pairwise (fun a b => b.1 ≤ a.1) :=
  foldl_insertDesc_pairwise l [] (by simp)

theorem mem_foldl_insertDesc (l : List (Nat × AssetManifest)) :
    ∀ (acc : List (Nat × AssetManifest)) (z : Nat × AssetManifest),
      z ∈ List.foldl (fun acc x => insertDesc x acc) acc l → z ∈ acc ∨ z ∈ l := by
  induction l with
  | nil => intro acc z hz; exact Or.inl hz
  | cons a t ih =>
      intro acc z hz
      rcases ih (insertDesc a acc) z hz with hz' | hz'
      · rcases mem_insertDesc.1 hz' with rfl | hz''
        · exact Or.inr (List.mem_cons_self _ _)
        · exact Or.inl hz''
      · exact Or.inr (List.mem_cons_of_mem _ hz')

theorem mem_sortDesc {l : List (Nat × AssetManifest)} {z : Nat × AssetManifest}
    (hz : z ∈ sortDesc l) : z ∈ l := by
  rcases mem_foldl_insertDesc l [] z hz with h | h
  · exact absurd h (List.not_mem_nil _)
  · exact h

theorem search_pairwise (c : AssetCatalog) (q : String) (category : Option String)
    (limit : Nat) :
    (search c q category limit).Pairwise (fun a b => score b q ≤ score a q) := by
  unfold search
  apply List.Pairwise.sublist (List.take_sublist _ _)
  rw [List.pairwise_map]
  have hinv : ∀ p ∈ sortDesc ((c.assets.filter (fun m =>
      match category with
      | some cat => m.category == cat
      | none => true)).filterMap (fun m =>
        let s := score m q
        if 0 < s then some (s, m) else none)), p.1 = score p.2 q := by
    intro p hp
    have hmem := mem_sortDesc hp
    rcases List.mem_filterMap.1 hmem with ⟨a, _, hfa⟩
    by_cases hs : 0 < score a q
    · simp only [if_pos hs] at hfa
      cases hfa
      rfl
    · simp only [if_neg hs] at hfa
      simp at hfa
  exact List.Pairwise.imp_of_mem
    (fun {a b} ha hb hab => by rw [← hinv a ha, ← hinv b hb]; exact hab)
    (sortDesc_pairwise _)

/-- C6 (amended): the id signal of `_score` gives 100 for an exact
(case-insensitive) id match and 50 for a partial one, so whenever the
remaining signals (name, tags, semantics) contribute equally to both
assets, the exact-id asset scores strictly higher and appears strictly
before the partial-id asset in the search results.  (In general the other
signals can reverse the ranking — see the counterexample.) -/
theorem search_exact_before_partial (c : AssetCatalog) (q : String)
    (category : Option String) (limit : Nat) (A B : AssetManifest)
    (hA : lowerStr q = lowerStr A.asset_id)
    (hBpart : strIn (lowerStr q) (lowerStr B.asset_id) = true)
    (hBne : lowerStr q ≠ lowerStr B.asset_id)
    (hrest : restScore A q = restScore B q)
    (i j : Fin (search c q category limit).length)
    (hgi : (search c q category limit).get i = A)
    (hgj : (search c q category limit).get j = B) :
    (i : Nat) < (j : Nat) := by
  have hidA : idScore A q = 100 := by
    unfold idScore exactOr
    rw [if_pos (beq_iff_eq.2 hA)]
  have hidB : idScore B q = 50 := by
    unfold idScore exactOr
    rw [if_neg (by simp [hBne]), if_pos hBpart]
  have hscore : score B q < score A q := by
    unfold score
    rw [hidA, hidB, hrest]
    omega
  have hpw := search_pairwise c q category limit
  rcases Nat.lt_trichotomy (i : Nat) (j : Nat) with h | h | h
  · exact h
  · exfalso
    have hAB : A = B := by
      rw [← hgi, ← hgj]
      congr 1
      exact Fin.ext h
    rw [hAB] at hscore
    exact lt_irrefl _ hscore
  · exfalso
    have := (List.pairwise_iff_get.1 hpw) j i h
    rw [hgi, hgj] at this
    omega

/-- Witness for C6 (amended): with no other signals, the exact-id asset
is ranked strictly before the partial-id asset. -/
theorem search_exact_before_partial_witness :
    (search catC6w "crate" none 10).get ⟨0, by decide⟩ = exactAsset ∧
    (search catC6w "crate" none 10).get ⟨1, by decide⟩ = partialPlainAsset ∧
    ((⟨0, by decide⟩ : Fin (search catC6w "crate" none 10).length) : Nat)
      < ((⟨1, by decide⟩ : Fin (search catC6w "crate" none 10).length) : Nat) := by
  refine ⟨by decide, by decide, ?_⟩
  exact search_exact_before_partial catC6w "crate" none 10 exactAsset
    partialPlainAsset (by decide) (by decide) (by decide) (by decide)
    ⟨0, by decide⟩ ⟨1, by decide⟩ (by decide) (by decide)

/-- Counterexample to C6 as stated: `crate` exactly matches the id of
`exactAsset` (score 100) and only partially matches the id of
`partialAsset`, but `partialAsset`'s exact name match lifts it to score
130, so the partial-id asset is ranked strictly before the exact-id
asset. -/
theorem search_exact_after_partial_counterexample :
    (search catC6 "crate" none 10).map (fun m => m.asset_id) = ["cratex", "crate"] ∧
    lowerStr "crate" = lowerStr exactAsset.asset_id ∧
    strIn (lowerStr "crate") (lowerStr partialAsset.asset_id) = true ∧
    lowerStr "crate" ≠ lowerStr partialAsset.asset_id ∧
    score exactAsset "crate" = 100 ∧ score partialAsset "crate" = 130 := by
  refine ⟨?_, ?_, ?_, ?_, ?_, ?_⟩ <;> decide

theorem find?_first {p : String → Bool} :
    ∀ (pre : List String) (aid : String) (post : List String),
      (∀ a ∈ pre, p a = false) → p aid = true →
      List.find? p (pre ++ aid :: post) = some aid
  | [], aid, post, _, hp => by simp [List.find?, hp]
  | a :: pre, aid, post, hpre, hp => by
      have ha := hpre a (List.mem_cons_self _ _)
      simp only [List.cons_append, List.find?]
      rw [ha]
      exact find?_first pre aid post
        (fun x hx => hpre x (List.mem_cons_of_mem _ hx)) hp

/-- C9 (amended): `find_fallback` returns `none` when the concept has no
index entry; it returns the manifest of the FIRST candidate that passes
the category filter with local availability (every earlier candidate
failing that combined test); and when no candidate passes the test it
returns the first candidate of the index entry regardless of the
category filter and of availability (not the first remote candidate). -/
theorem findFallback_characterization (c : AssetCatalog) (concept : String)
    (category : Option String) :
    (byFallback c (lowerStr concept) = [] → findFallback c concept category = none) ∧
    (∀ (pre : List String) (aid : String) (post : List String),
      byFallback c (lowerStr concept) = pre ++ aid :: post →
      (∀ a ∈ pre, localPass c category a = false) →
      localPass c category aid = true →
      findFallback c concept category = lookupId c aid) ∧
    ((∀ aid ∈ byFallback c (lowerStr concept), localPass c category aid = false) →
      ∀ a rest, byFallback c (lowerStr concept) = a :: rest →
        findFallback c concept category = lookupId c a) := by
  refine ⟨?_, ?_, ?_⟩
  · intro h
    simp [findFallback, h]
  · intro pre aid post heq hpre hpa
    have hfind : (byFallback c (lowerStr concept)).find?
        (fun aid => localPass c category aid) = some aid := by
      rw [heq]
      exact find?_first pre aid post hpre hpa
    simp [findFallback, hfind]
  · intro hall a rest heq
    have hnone : (byFallback c (lowerStr concept)).find?
        (fun aid => localPass c category aid) = none := by
      rw [List.find?_eq_none]
      intro x hx
      rw [hall x hx]
      simp
    rw [heq] at hnone
    simp [findFallback, heq, hnone]

/-- Witness for C9 (amended): with candidates `[r1, a2]` whose first
entry is remote, the first locally-available candidate `a2` is the one
returned; and a concept absent from the index yields `none`. -/
theorem findFallback_characterization_witness :
    findFallback catC9b "tool" none = some toolLocalProp2 ∧
    byFallback catC9b (lowerStr "tool") = ["r1"] ++ "a2" :: [] ∧
    localPass catC9b none "r1" = false ∧
    localPass catC9b none "a2" = true ∧
    findFallback catC9b "hammer" none = none := by
  have h := findFallback_characterization catC9b "tool" none
  have h2 := findFallback_characterization catC9b "hammer" none
  refine ⟨?_, by decide, by decide, by decide, h2.1 (by decide)⟩
  have hfirst := h.2.1 ["r1"] "a2" [] (by decide) (by decide) (by decide)
  rw [hfirst]
  decide

/-- Counterexample to C9 as stated: for concept `tool` filtered to
category `vehicle`, the candidates are `[a, b]`; no candidate passes the
filter with local availability, and the claim then requires the first
remote candidate (`b`, the remote vehicle) — but the code returns the
manifest of `a`, which is local and fails the category filter. -/
theorem findFallback_counterexample :
    findFallback catC9 "tool" (some "vehicle") = some toolLocalProp ∧
    toolLocalProp.availability = "local" ∧
    toolLocalProp.category ≠ "vehicle" ∧
    toolRemoteVehicle ∈ catC9.assets ∧
    toolRemoteVehicle.availability = "remote" ∧
    toolRemoteVehicle.category = "vehicle" ∧
    byFallback catC9 (lowerStr "tool") = ["a", "b"] := by
  refine ⟨?_, ?_, ?_, ?_, ?_, ?_, ?_⟩ <;> decide

theorem except_bind_ok {α β : Type} {x : Except CompileErr α}
    {f : α → Except CompileErr β} {b : β} (h : x >>= f = .ok b) :
    ∃ a, x = .ok a ∧ f a = .ok b := by
  cases x with
  | error e => simp [Bind.bind, Except.bind] at h
  | ok a => exact ⟨a, rfl, by simpa [Bind.bind, Except.bind] using h⟩

theorem exceptMapM_ok_forall₂ {α β : Type} {f : α → Except CompileErr β} :
    ∀ {l : List α} {ys : List β}, exceptMapM f l = .ok ys →
      List.Forall₂ (fun a b => f a = .ok b) l ys
  | [], ys, h => by
      unfold exceptMapM at h
      injection h with h
      subst h
      exact List.Forall₂.nil
  | a :: as, ys, h => by
      unfold exceptMapM at h
      obtain ⟨b, hb, h⟩ := except_bind_ok h
      obtain ⟨bs, hbs, h⟩ := except_bind_ok h
      injection h with h
      subst h
      exact List.Forall₂.cons hb (exceptMapM_ok_forall₂ hbs)

theorem exceptMapM_total {α β : Type} {f : α → Except CompileErr β} :
    ∀ {l : List α}, (∀ a ∈ l, ∃ b, f a = .ok b) → ∃ ys, exceptMapM f l = .ok ys
  | [], _ => ⟨[], rfl⟩
  | a :: as, h => by
      obtain ⟨b, hb⟩ := h a (List.mem_cons_self a as)
      obtain ⟨bs, hbs⟩ := exceptMapM_total (fun x hx => h x (List.mem_cons_of_mem a hx))
      exact ⟨b :: bs, by simp [exceptMapM, hb, hbs, Bind.bind, Except.bind]⟩

theorem forall₂_mem_right {α β : Type} {R : α → β → Prop} :
    ∀ {l1 : List α} {l2 : List β}, List.Forall₂ R l1 l2 →
      ∀ b ∈ l2, ∃ a ∈ l1, R a b := by
  intro l1 l2 h
  induction h with
  | nil => intro b hb; exact absurd hb (List.not_mem_nil _)
  | cons hab htail ih =>
      intro b hb
      rcases List.mem_cons.1 hb with rfl | hb
      · exact ⟨_, List.mem_cons_self _ _, hab⟩
      · obtain ⟨a, ha, hr⟩ := ih b hb
        exact ⟨a, List.mem_cons_of_mem _ ha, hr⟩

theorem instanceBody_ok_shape {fs : FileSys} {fileKey base : String}
    {p : Nat × InstanceSpec} {r : XmlElem × List XmlElem × List XmlElem}
    (h : instanceBody fs fileKey base p = .ok r) :
    ∃ content, loadAssetContent fs fileKey (bodyNameOf base p.1 p.2) = .ok content ∧
      r = (XmlElem.mk "body"
            ([("name", bodyNameOf base p.1 p.2),
              ("pos", formatVec3 p.2.pose.position)] ++ eulerAttrs p.2.pose)
            content.worldbody,
          content.assets, content.sensors) := by
  unfold instanceBody at h
  obtain ⟨content, hc, h⟩ := except_bind_ok h
  injection h with h
  exact ⟨content, hc, h.symm⟩

theorem processObj_ok_shape {P : Prims} {fs : FileSys} {catalog : AssetCatalog}
    {seed : Int} {obj : ObjectSpec}
    {r : List XmlElem × List XmlElem × List XmlElem}
    (h : processObj P fs catalog seed obj = .ok r) :
    ∃ m results,
      catalogGet catalog obj.asset_id = .ok m ∧
      exceptMapM (instanceBody fs (fileKeyOf m) (effectiveBase obj))
        (layoutInstances P obj catalog seed).enum = .ok results ∧
      r = (results.map (fun x => x.1),
           (results.map (fun x => x.2.1)).flatten,
           (results.map (fun x => x.2.2)).flatten) := by
  unfold processObj at h
  obtain ⟨m, hm, h⟩ := except_bind_ok h
  obtain ⟨results, hres, h⟩ := except_bind_ok h
  injection h with h
  exact ⟨m, results, hm, hres, h.symm⟩

theorem buildDoc_ok_shape {P : Prims} {fs : FileSys} {scene : SceneSpec}
    {catalog : AssetCatalog} {seed : Int} {doc : XmlElem}
    (h : buildDoc P fs scene catalog seed = .ok doc) :
    ∃ envM envContent objRes,
      catalogGet catalog scene.environment.asset_id = .ok envM ∧
      loadAssetContent fs (fileKeyOf envM)
        ("env_" ++ scene.environment.asset_id) = .ok envContent ∧
      exceptMapM (processObj P fs catalog seed) scene.objects = .ok objRes ∧
      doc = XmlElem.mk "mujoco" [("model", scene.name)]
        ([compilerElem, optionElem scene, visualElem,
          XmlElem.mk "asset" []
            ([gridTextureElem, gridMaterialElem] ++ envContent.assets
              ++ (objRes.map (fun r => r.2.1)).flatten),
          XmlElem.mk "worldbody" []
            (lightElems scene
              ++ [XmlElem.mk "body"
                    [("name", "env_" ++ scene.environment.asset_id), ("pos", "0 0 0")]
                    envContent.worldbody]
              ++ (objRes.map (fun r => r.1)).flatten
              ++ scene.cameras.map (mkCamera P))]
          ++ (if (envContent.sensors ++ (objRes.map (fun r => r.2.2)).flatten).isEmpty
              then []
              else [XmlElem.mk "sensor" []
                (envContent.sensors ++ (objRes.map (fun r => r.2.2)).flatten)])) := by
  unfold buildDoc at h
  obtain ⟨envM, hm, h⟩ := except_bind_ok h
  obtain ⟨envContent, hc, h⟩ := except_bind_ok h
  obtain ⟨objRes, hres, h⟩ := except_bind_ok h
  injection h with h
  exact ⟨envM, envContent, objRes, hm, hc, hres, h.symm⟩

theorem processObj_bodies {P : Prims} {fs : FileSys} {catalog : AssetCatalog}
    {seed : Int} {obj : ObjectSpec}
    {r : List XmlElem × List XmlElem × List XmlElem}
    (h : processObj P fs catalog seed obj = .ok r) :
    r.1.map (fun b => getAttr b "name")
      = (layoutInstances P obj catalog seed).enum.map
          (fun p => some (bodyNameOf (effectiveBase obj) p.1 p.2)) ∧
    ∀ b ∈ r.1, b.tag = "body" := by
  obtain ⟨m, results, hm, hres, hr⟩ := processObj_ok_shape h
  have hf2 := exceptMapM_ok_forall₂ hres
  subst hr
  constructor
  · show (results.map (fun x => x.1)).map (fun b => getAttr b "name") = _
    have key : ∀ {l : List (Nat × InstanceSpec)}
        {res : List (XmlElem × List XmlElem × List XmlElem)},
        List.Forall₂
          (fun a b => instanceBody fs (fileKeyOf m) (effectiveBase obj) a = .ok b)
          l res →
        (res.map (fun x => x.1)).map (fun b => getAttr b "name")
          = l.map (fun p => some (bodyNameOf (effectiveBase obj) p.1 p.2)) := by
      intro l res h2
      induction h2 with
      | nil => simp
      | cons hab htail ih =>
          obtain ⟨content, _, hb⟩ := instanceBody_ok_shape hab
          subst hb
          simp only [List.map_cons]
          rw [ih]
          simp [getAttr, XmlElem.attrs, List.find?]
    exact key hf2
  · intro b hb
    rcases List.mem_map.1 hb with ⟨x, hx, rfl⟩
    obtain ⟨p, _, hpx⟩ := forall₂_mem_right hf2 x hx
    obtain ⟨content, _, hshape⟩ := instanceBody_ok_shape hpx
    subst hshape
    rfl

/-- C7 (amended): in the compiled document the worldbody children are, in
order: the light elements first (the scene's lights, or the synthetic
default light), then the environment body, then one body per object
instance in the object list's declared order (within an object, in
instance-list order, named by the instance's body name), then one camera
element per CameraSpec; the aggregated sensor section is appended after
the world hierarchy exactly when non-empty.  (The claim put the
environment body before the lights; the code appends the lights first.) -/
theorem worldbody_order (P : Prims) (fs : FileSys) (scene : SceneSpec)
    (catalog : AssetCatalog) (seed : Int) (doc : XmlElem)
    (hok : buildDoc P fs scene catalog seed = .ok doc) :
    ∃ (assetChildren envWB : List XmlElem) (objBodies : List (List XmlElem))
      (sensors : List XmlElem),
      doc = XmlElem.mk "mujoco" [("model", scene.name)]
        ([compilerElem, optionElem scene, visualElem,
          XmlElem.mk "asset" [] assetChildren,
          XmlElem.mk "worldbody" []
            (lightElems scene
              ++ [XmlElem.mk "body"
                    [("name", "env_" ++ scene.environment.asset_id), ("pos", "0 0 0")]
                    envWB]
              ++ objBodies.flatten
              ++ scene.cameras.map (mkCamera P))]
          ++ (if sensors.isEmpty then [] else [XmlElem.mk "sensor" [] sensors])) ∧
      List.Forall₂ (fun obj bodies =>
          bodies.map (fun b => getAttr b "name")
            = (layoutInstances P obj catalog seed).enum.map
                (fun p => some (bodyNameOf (effectiveBase obj) p.1 p.2)) ∧
          ∀ b ∈ bodies, b.tag = "body")
        scene.objects objBodies := by
  obtain ⟨envM, envContent, objRes, _, _, hres, hdoc⟩ := buildDoc_ok_shape hok
  refine ⟨_, _, objRes.map (fun r => r.1), _, hdoc, ?_⟩
  exact List.forall₂_map_right_iff.2
    ((exceptMapM_ok_forall₂ hres).imp (fun a b hab => processObj_bodies hab))

/-- Witness for C7 (amended) at the concrete one-light scene. -/
theorem worldbody_order_witness :
    ∃ (assetChildren envWB : List XmlElem) (objBodies : List (List XmlElem))
      (sensors : List XmlElem),
      docC7 = XmlElem.mk "mujoco" [("model", sceneC7.name)]
        ([compilerElem, optionElem sceneC7, visualElem,
          XmlElem.mk "asset" [] assetChildren,
          XmlElem.mk "worldbody" []
            (lightElems sceneC7
              ++ [XmlElem.mk "body"
                    [("name", "env_" ++ sceneC7.environment.asset_id), ("pos", "0 0 0")]
                    envWB]
              ++ objBodies.flatten
              ++ sceneC7.cameras.map (mkCamera P0))]
          ++ (if sensors.isEmpty then [] else [XmlElem.mk "sensor" [] sensors])) ∧
      List.Forall₂ (fun obj bodies =>
          bodies.map (fun b => getAttr b "name")
            = (layoutInstances P0 obj catC7 42).enum.map
                (fun p => some (bodyNameOf (effectiveBase obj) p.1 p.2)) ∧
          ∀ b ∈ bodies, b.tag = "body")
        sceneC7.objects objBodies :=
  worldbody_order P0 fs1 sceneC7 catC7 42 docC7 rfl

/-- Counterexample to C7 as stated: with one declared light, the first
worldbody child of the compiled document is the light element, and the
environment body comes second — not environment first with lights last. -/
theorem worldbody_light_first_counterexample :
    (buildDoc P0 fs1 sceneC7 catC7 42).toOption.map
        (fun d =>
          match findChild d "worldbody" with
          | some wb => wb.children.map (fun e => e.tag)
          | none => [])
      = some ["light", "body"] ∧
    sceneC7.lights.map (fun l => l.name) = ["sun"] :=
  ⟨rfl, rfl⟩

theorem forall₂_mem_left {α β : Type} {R : α → β → Prop} :
    ∀ {l1 : List α} {l2 : List β}, List.Forall₂ R l1 l2 →
      ∀ a ∈ l1, ∃ b ∈ l2, R a b := by
  intro l1 l2 h
  induction h with
  | nil => intro a ha; exact absurd ha (List.not_mem_nil _)
  | cons hab htail ih =>
      intro a ha
      rcases List.mem_cons.1 ha with rfl | ha
      · exact ⟨_, List.mem_cons_self _ _, hab⟩
      · obtain ⟨b, hb, hr⟩ := ih a ha
        exact ⟨b, List.mem_cons_of_mem _ hb, hr⟩

theorem loadAssetContent_total {fs : FileSys} {path pfx : String}
    (h : (fs path).isSome) :
    ∃ content, loadAssetContent fs path pfx = .ok content := by
  unfold loadAssetContent
  cases hfs : fs path with
  | none => rw [hfs] at h; exact absurd h (by simp)
  | some fc =>
      cases fc with
      | emptyContent => exact ⟨_, rfl⟩
      | malformed => exact ⟨_, rfl⟩
      | parsed root =>
          dsimp only
          cases ht : (root.tag == "mujoco") with
          | true => exact ⟨_, rfl⟩
          | false => exact ⟨_, rfl⟩

theorem bind_ok {α β : Type} {x : Except CompileErr α} {a : α}
    (hx : x = .ok a) (f : α → Except CompileErr β) : x >>= f = f a := by
  subst hx
  rfl

theorem processObj_total {P : Prims} {fs : FileSys} {catalog : AssetCatalog}
    {seed : Int} {obj : ObjectSpec} {mo : AssetManifest}
    (hm : catalogGet catalog obj.asset_id = .ok mo)
    (hf : (fs (fileKeyOf mo)).isSome) :
    ∃ r, processObj P fs catalog seed obj = .ok r := by
  obtain ⟨ys, hys⟩ := @exceptMapM_total _ _
    (instanceBody fs (fileKeyOf mo) (effectiveBase obj))
    (layoutInstances P obj catalog seed).enum
    (fun p _ => by
      obtain ⟨content, hc⟩ :=
        @loadAssetContent_total fs (fileKeyOf mo)
          (bodyNameOf (effectiveBase obj) p.1 p.2) hf
      unfold instanceBody
      rw [bind_ok hc]
      exact ⟨_, rfl⟩)
  unfold processObj
  simp only [bind_ok hm, bind_ok hys]
  exact ⟨_, rfl⟩

/-- C8 (amended): a missing fragment file aborts the compile — for the
environment directly with the read error, and for any object whose
expansion is non-empty the compile cannot succeed; but when every
referenced manifest resolves and every fragment file is present the
compile succeeds whatever the files contain — in particular an
unparsable fragment is not fatal, it merely contributes nothing (see the
counterexample). -/
theorem fragment_error_behavior (P : Prims) (fs : FileSys) (scene : SceneSpec)
    (catalog : AssetCatalog) (seed : Int) :
    (∀ m, catalogGet catalog scene.environment.asset_id = .ok m →
      fs (fileKeyOf m) = none →
      buildDoc P fs scene catalog seed = .error (.fileNotFound (fileKeyOf m))) ∧
    (∀ m, catalogGet catalog scene.environment.asset_id = .ok m →
      (fs (fileKeyOf m)).isSome →
      (∀ obj ∈ scene.objects, ∃ mo, catalogGet catalog obj.asset_id = .ok mo ∧
        (fs (fileKeyOf mo)).isSome) →
      ∃ doc, buildDoc P fs scene catalog seed = .ok doc) ∧
    (∀ obj ∈ scene.objects, ∀ mo, catalogGet catalog obj.asset_id = .ok mo →
      fs (fileKeyOf mo) = none →
      layoutInstances P obj catalog seed ≠ [] →
      ∀ doc, buildDoc P fs scene catalog seed ≠ .ok doc) := by
  refine ⟨?_, ?_, ?_⟩
  · intro m hm hf
    simp [buildDoc, hm, loadAssetContent, hf, Bind.bind, Except.bind]
  · intro m hm hf hobjs
    obtain ⟨envContent, hc⟩ :=
      @loadAssetContent_total fs (fileKeyOf m)
        ("env_" ++ scene.environment.asset_id) hf
    obtain ⟨objRes, hres⟩ := @exceptMapM_total _ _
      (processObj P fs catalog seed) scene.objects
      (fun obj hobj => by
        obtain ⟨mo, hmo, hfo⟩ := hobjs obj hobj
        exact processObj_total hmo hfo)
    unfold buildDoc
    simp only [bind_ok hm, bind_ok hc, bind_ok hres]
    exact ⟨_, rfl⟩
  · intro obj hobj mo hmo hfo hinsts doc hok
    obtain ⟨envM, envContent, objRes, _, _, hres, _⟩ := buildDoc_ok_shape hok
    obtain ⟨r, _, hpo⟩ := forall₂_mem_left (exceptMapM_ok_forall₂ hres) obj hobj
    obtain ⟨m2, results, hm2, hres2, _⟩ := processObj_ok_shape hpo
    rw [hmo] at hm2
    injection hm2 with hm2
    subst hm2
    have henum : (layoutInstances P obj catalog seed).enum ≠ [] := by
      intro hnil
      rw [List.enum_eq_nil] at hnil
      exact hinsts hnil
    obtain ⟨p, hpmem⟩ := List.exists_mem_of_ne_nil _ henum
    obtain ⟨b, _, hib⟩ := forall₂_mem_left (exceptMapM_ok_forall₂ hres2) p hpmem
    obtain ⟨content, hc, _⟩ := instanceBody_ok_shape hib
    rw [loadAssetContent] at hc
    simp [hfo] at hc

/-- Counterexample to C8 as stated: the environment fragment of this
compile fails to parse (`ET.ParseError`), yet `scene_to_mjcf` succeeds —
`_load_asset_content` swallows the parse error and returns the empty
content, so the document silently omits the fragment. -/
theorem unparsable_fragment_not_fatal_counterexample :
    fsMal "orchard/model.xml" = some FileContent.malformed ∧
    (buildDoc P0 fsMal scene0 catC7 42).toOption.isSome = true ∧
    loadAssetContent fsMal "orchard/model.xml" "env_orchard"
      = .ok ⟨[], [], []⟩ :=
  ⟨rfl, rfl, rfl⟩

theorem renameAttr_fst (names : List String) (pfx : String) (kv : String × String) :
    (renameAttr names pfx kv).1 = kv.1 := by
  unfold renameAttr
  split
  · rfl
  · split
    · rfl
    · rfl

theorem renameAttr_name_val (names : List String) (pfx : String) (v : String) :
    renameAttr names pfx ("name", v) = ("name", applyRen names pfx v) := by
  unfold renameAttr applyRen
  by_cases h : v ∈ names
  · simp [h]
  · have hn : ¬ ("name" ∈ refAttrKeys ∧ v ∈ names) := fun hc => h hc.2
    simp [h, hn]

theorem renameAttr_ref_val (names : List String) (pfx : String) {k : String}
    (v : String) (hk : refAttrKeys.contains k = true) :
    renameAttr names pfx (k, v) = (k, applyRen names pfx v) := by
  have hkm : k ∈ refAttrKeys := by simpa using hk
  have hkname : (k == "name") = false := by
    cases hbe : (k == "name") with
    | false => rfl
    | true =>
        have hkeq : k = "name" := by simpa using hbe
        subst hkeq
        exact absurd hk (by decide)
  unfold renameAttr applyRen
  by_cases h : v ∈ names
  · simp [hkname, hkm, h]
  · have hn : ¬ (k ∈ refAttrKeys ∧ v ∈ names) := fun hc => h hc.2
    simp [hkname, hn, h]

theorem find?_name_map (names : List String) (pfx : String) (k : String) :
    ∀ l : List (String × String),
      List.find? (fun kv => kv.1 == k) (l.map (renameAttr names pfx))
        = Option.map (renameAttr names pfx) (List.find? (fun kv => kv.1 == k) l)
  | [] => rfl
  | kv :: t => by
      simp only [List.map_cons, List.find?]
      rw [renameAttr_fst]
      cases h : (kv.1 == k) with
      | true => simp [h]
      | false => simp [h, find?_name_map names pfx k t]

theorem filter_ref_map (names : List String) (pfx : String) :
    ∀ l : List (String × String),
      (l.map (renameAttr names pfx)).filter (fun kv => refAttrKeys.contains kv.1)
        = (l.filter (fun kv => refAttrKeys.contains kv.1)).map (renameAttr names pfx)
  | [] => rfl
  | kv :: t => by
      simp only [List.map_cons, List.filter_cons]
      rw [renameAttr_fst, filter_ref_map names pfx t]
      by_cases h : kv.1 ∈ refAttrKeys
      · simp [h]
      · simp [h]

theorem declaredNamesL_append :
    ∀ l1 l2 : List XmlElem,
      declaredNamesL (l1 ++ l2) = declaredNamesL l1 ++ declaredNamesL l2
  | [], _ => rfl
  | c :: t, l2 => by
      show declaredNames c ++ declaredNamesL (t ++ l2)
        = (declaredNames c ++ declaredNamesL t) ++ declaredNamesL l2
      rw [declaredNamesL_append t l2, List.append_assoc]

theorem refValuesL_append :
    ∀ l1 l2 : List XmlElem,
      refValuesL (l1 ++ l2) = refValuesL l1 ++ refValuesL l2
  | [], _ => rfl
  | c :: t, l2 => by
      show refValuesE c ++ refValuesL (t ++ l2)
        = (refValuesE c ++ refValuesL t) ++ refValuesL l2
      rw [refValuesL_append t l2, List.append_assoc]

mutual

theorem declaredNames_rename (names : List String) (pfx : String) :
    ∀ e : XmlElem,
      declaredNames (renameElem names pfx e)
        = (declaredNames e).map (applyRen names pfx)
  | .mk t attrs cs => by
      simp only [renameElem, declaredNames]
      rw [find?_name_map, List.map_append, declaredNamesL_rename names pfx cs]
      congr 1
      cases hf : List.find? (fun kv => kv.1 == "name") attrs with
      | none => rfl
      | some kv =>
          have hk := List.find?_some hf
          cases kv with
          | mk k v =>
              have hkeq : k = "name" := by simpa using hk
              subst hkeq
              simp [renameAttr_name_val]

theorem declaredNamesL_rename (names : List String) (pfx : String) :
    ∀ cs : List XmlElem,
      declaredNamesL (renameElemL names pfx cs)
        = (declaredNamesL cs).map (applyRen names pfx)
  | [] => rfl
  | c :: cs => by
      simp only [renameElemL, declaredNamesL, List.map_append]
      rw [declaredNames_rename names pfx c, declaredNamesL_rename names pfx cs]

end

mutual

theorem refValuesE_rename (names : List String) (pfx : String) :
    ∀ e : XmlElem,
      refValuesE (renameElem names pfx e)
        = (refValuesE e).map (applyRen names pfx)
  | .mk t attrs cs => by
      simp only [renameElem, refValuesE]
      rw [filter_ref_map, List.map_append, refValuesL_rename names pfx cs]
      congr 1
      rw [List.map_map, List.map_map]
      apply List.map_congr_left
      intro kv hkv
      have hk : refAttrKeys.contains kv.1 = true := by
        have := List.mem_filter.1 hkv
        simpa using this.2
      cases kv with
      | mk k v =>
          simp only [Function.comp]
          rw [renameAttr_ref_val names pfx v hk]

theorem refValuesL_rename (names : List String) (pfx : String) :
    ∀ cs : List XmlElem,
      refValuesL (renameElemL names pfx cs)
        = (refValuesL cs).map (applyRen names pfx)
  | [] => rfl
  | c :: cs => by
      simp only [renameElemL, refValuesL, List.map_append]
      rw [refValuesE_rename names pfx c, refValuesL_rename names pfx cs]

end

theorem getAttr_none_find? {e : XmlElem} (h : getAttr e "name" = none) :
    List.find? (fun kv => kv.1 == "name") e.attrs = none := by
  unfold getAttr at h
  cases hf : List.find? (fun kv => kv.1 == "name") e.attrs with
  | none => rfl
  | some kv => rw [hf] at h; simp at h

theorem declaredNames_of_unnamed {e : XmlElem} (h : getAttr e "name" = none) :
    declaredNames e = declaredNamesL e.children := by
  cases e with
  | mk t attrs cs =>
      have hf := getAttr_none_find? h
      simp only [declaredNames]
      rw [show (XmlElem.mk t attrs cs).attrs = attrs from rfl] at hf
      rw [hf]
      rfl

theorem sectionNames_unnamed {root : XmlElem}
    (ha : ∀ s, findChild root "asset" = some s → getAttr s "name" = none)
    (hw : ∀ s, findChild root "worldbody" = some s → getAttr s "name" = none)
    (hs : ∀ s, findChild root "sensor" = some s → getAttr s "name" = none) :
    sectionNames root
      = declaredNamesL (sectionChildren root "asset")
        ++ declaredNamesL (sectionChildren root "worldbody")
        ++ declaredNamesL (sectionChildren root "sensor") := by
  have h1 : (match findChild root "asset" with
      | some s => declaredNames s
      | none => []) = declaredNamesL (sectionChildren root "asset") := by
    unfold sectionChildren
    cases hA : findChild root "asset" with
    | none => rfl
    | some s => exact declaredNames_of_unnamed (ha s hA)
  have h2 : (match findChild root "worldbody" with
      | some s => declaredNames s
      | none => []) = declaredNamesL (sectionChildren root "worldbody") := by
    unfold sectionChildren
    cases hW : findChild root "worldbody" with
    | none => rfl
    | some s => exact declaredNames_of_unnamed (hw s hW)
  have h3 : (match findChild root "sensor" with
      | some s => declaredNames s
      | none => []) = declaredNamesL (sectionChildren root "sensor") := by
    unfold sectionChildren
    cases hS : findChild root "sensor" with
    | none => rfl
    | some s => exact declaredNames_of_unnamed (hs s hS)
  unfold sectionNames
  rw [h1, h2, h3]

theorem catalogGet_ok_lookup {c : AssetCatalog} {aid : String} {m : AssetManifest}
    (h : catalogGet c aid = .ok m) : lookupId c aid = some m := by
  unfold catalogGet at h
  cases hl : lookupId c aid with
  | some m2 => rw [hl] at h; injection h with h; rw [h]
  | none => rw [hl] at h; simp at h

theorem loadAssetContent_parsed_shape {fs : FileSys} {path pfx : String}
    {root : XmlElem} {content : AssetContent}
    (hfs : fs path = some (.parsed root)) (ht : (root.tag == "mujoco") = true)
    (h : loadAssetContent fs path pfx = .ok content) :
    content.assets
        = renameElemL (sectionNames root) pfx (sectionChildren root "asset") ∧
    content.worldbody
        = renameElemL (sectionNames root) pfx (sectionChildren root "worldbody") ∧
    content.sensors
        = renameElemL (sectionNames root) pfx (sectionChildren root "sensor") := by
  unfold loadAssetContent at h
  rw [hfs] at h
  dsimp only at h
  rw [ht] at h
  simp only [if_true] at h
  injection h with h
  subst h
  refine ⟨?_, ?_, ?_⟩
  · show (match findChild root "asset" with
      | some s => renameElemL (sectionNames root) pfx s.children
      | none => []) = _
    unfold sectionChildren
    cases findChild root "asset" <;> rfl
  · show (match findChild root "worldbody" with
      | some s => renameElemL (sectionNames root) pfx s.children
      | none => []) = _
    unfold sectionChildren
    cases findChild root "worldbody" <;> rfl
  · show (match findChild root "sensor" with
      | some s => renameElemL (sectionNames root) pfx s.children
      | none => []) = _
    unfold sectionChildren
    cases findChild root "sensor" <;> rfl

theorem loadAssetContent_names {fs : FileSys} {path pfx : String}
    {content : AssetContent} (h : loadAssetContent fs path pfx = .ok content) :
    declaredNamesL content.assets = (fragNames fs path pfx).1 ∧
    declaredNamesL content.worldbody = (fragNames fs path pfx).2.1 ∧
    declaredNamesL content.sensors = (fragNames fs path pfx).2.2 := by
  unfold fragNames
  cases hfs : fs path with
  | none =>
      unfold loadAssetContent at h
      rw [hfs] at h
      simp at h
  | some fc =>
      cases fc with
      | emptyContent =>
          unfold loadAssetContent at h
          rw [hfs] at h
          injection h with h
          subst h
          exact ⟨rfl, rfl, rfl⟩
      | malformed =>
          unfold loadAssetContent at h
          rw [hfs] at h
          injection h with h
          subst h
          exact ⟨rfl, rfl, rfl⟩
      | parsed root =>
          cases ht : (root.tag == "mujoco") with
          | true =>
              obtain ⟨hA, hW, hS⟩ := loadAssetContent_parsed_shape hfs ht h
              dsimp only
              rw [ht]
              simp only [if_true]
              exact ⟨by rw [hA, declaredNamesL_rename],
                     by rw [hW, declaredNamesL_rename],
                     by rw [hS, declaredNamesL_rename]⟩
          | false =>
              unfold loadAssetContent at h
              rw [hfs] at h
              dsimp only at h
              rw [ht] at h
              simp only [Bool.false_eq_true, if_false] at h
              injection h with h
              subst h
              dsimp only
              rw [ht]
              simp only [Bool.false_eq_true, if_false]
              refine ⟨rfl, ?_, rfl⟩
              show declaredNamesL [renameElem (declaredNames root) pfx root] = _
              show declaredNames (renameElem (declaredNames root) pfx root) ++ [] = _
              rw [List.append_nil, declaredNames_rename]

theorem declaredNames_mkLight (l : LightSpec) :
    declaredNames (mkLight l) = [l.name] := by
  simp [mkLight, declaredNames, declaredNamesL, List.find?]

theorem declaredNamesL_map_mkLight :
    ∀ ls : List LightSpec,
      declaredNamesL (ls.map mkLight) = ls.map (fun l => l.name)
  | [] => rfl
  | l :: t => by
      simp only [List.map_cons, declaredNamesL]
      rw [declaredNames_mkLight, declaredNamesL_map_mkLight t]
      rfl

theorem declaredNamesL_lights (scene : SceneSpec) :
    declaredNamesL (lightElems scene) = lightNames scene := by
  unfold lightElems lightNames
  by_cases h : scene.lights.isEmpty
  · simp only [h, if_true]
    simp [declaredNamesL, defaultLightElem, declaredNames, List.find?]
  · simp only [h, if_false]
    exact declaredNamesL_map_mkLight scene.lights

theorem declaredNames_mkCamera (P : Prims) (cam : CameraSpec) :
    declaredNames (mkCamera P cam) = [cam.name] := by
  simp [mkCamera, declaredNames, declaredNamesL, List.find?]

theorem declaredNamesL_map_mkCamera (P : Prims) :
    ∀ cams : List CameraSpec,
      declaredNamesL (cams.map (mkCamera P)) = cams.map (fun c => c.name)
  | [] => rfl
  | c :: t => by
      simp only [List.map_cons, declaredNamesL]
      rw [declaredNames_mkCamera, declaredNamesL_map_mkCamera P t]
      rfl

theorem declaredNames_envBody (pfx : String) (wb : List XmlElem) :
    declaredNames (XmlElem.mk "body" [("name", pfx), ("pos", "0 0 0")] wb)
      = pfx :: declaredNamesL wb := by
  simp [declaredNames, List.find?]

theorem declaredNames_body (bname v : String) (extra : List (String × String))
    (wb : List XmlElem) :
    declaredNames (XmlElem.mk "body" ([("name", bname), ("pos", v)] ++ extra) wb)
      = bname :: declaredNamesL wb := by
  simp [declaredNames, List.find?]

theorem declaredNames_mujoco (nm : String) (CH : List XmlElem) :
    declaredNames (XmlElem.mk "mujoco" [("model", nm)] CH) = declaredNamesL CH := by
  simp [declaredNames, List.find?]

theorem declaredNames_noattrs (t : String) (CH : List XmlElem) :
    declaredNames (XmlElem.mk t [] CH) = declaredNamesL CH := by
  simp [declaredNames, List.find?]

theorem declaredNames_compiler : declaredNames compilerElem = [] := by
  simp [compilerElem, declaredNames, declaredNamesL, List.find?]

theorem declaredNames_option (scene : SceneSpec) :
    declaredNames (optionElem scene) = [] := by
  simp [optionElem, declaredNames, declaredNamesL, List.find?]

theorem declaredNames_visual : declaredNames visualElem = [] := by
  simp [visualElem, declaredNames, declaredNamesL, List.find?]

theorem declaredNamesL_gridAssets :
    declaredNamesL [gridTextureElem, gridMaterialElem] = ["grid", "grid_mat"] := by
  simp [gridTextureElem, gridMaterialElem, declaredNames, declaredNamesL, List.find?]

theorem processObj_declNames {P : Prims} {fs : FileSys} {catalog : AssetCatalog}
    {seed : Int} {obj : ObjectSpec}
    {r : List XmlElem × List XmlElem × List XmlElem}
    (h : processObj P fs catalog seed obj = .ok r) :
    declaredNamesL r.1
      = ((objFragNames P fs catalog seed obj).map
          (fun q => [q.1] ++ q.2.2.1)).flatten ∧
    declaredNamesL r.2.1
      = ((objFragNames P fs catalog seed obj).map (fun q => q.2.1)).flatten ∧
    declaredNamesL r.2.2
      = ((objFragNames P fs catalog seed obj).map (fun q => q.2.2.2)).flatten := by
  obtain ⟨m, results, hm, hres, hr⟩ := processObj_ok_shape h
  subst hr
  have hl := catalogGet_ok_lookup hm
  unfold objFragNames
  rw [hl]
  dsimp only
  have key : ∀ {l : List (Nat × InstanceSpec)}
      {res : List (XmlElem × List XmlElem × List XmlElem)},
      List.Forall₂
        (fun p t => instanceBody fs (fileKeyOf m) (effectiveBase obj) p = .ok t)
        l res →
      declaredNamesL (res.map (fun x => x.1))
        = ((l.map (fun p => (bodyNameOf (effectiveBase obj) p.1 p.2,
              fragNames fs (fileKeyOf m) (bodyNameOf (effectiveBase obj) p.1 p.2)))).map
            (fun q => [q.1] ++ q.2.2.1)).flatten ∧
      declaredNamesL ((res.map (fun x => x.2.1)).flatten)
        = ((l.map (fun p => (bodyNameOf (effectiveBase obj) p.1 p.2,
              fragNames fs (fileKeyOf m) (bodyNameOf (effectiveBase obj) p.1 p.2)))).map
            (fun q => q.2.1)).flatten ∧
      declaredNamesL ((res.map (fun x => x.2.2)).flatten)
        = ((l.map (fun p => (bodyNameOf (effectiveBase obj) p.1 p.2,
              fragNames fs (fileKeyOf m) (bodyNameOf (effectiveBase obj) p.1 p.2)))).map
            (fun q => q.2.2.2)).flatten := by
    intro l res h2
    induction h2 with
    | nil => exact ⟨rfl, rfl, rfl⟩
    | cons hab htail ih =>
        obtain ⟨content, hload, hb⟩ := instanceBody_ok_shape hab
        subst hb
        obtain ⟨hn1, hn2, hn3⟩ := loadAssetContent_names hload
        refine ⟨?_, ?_, ?_⟩
        · simp only [List.map_cons, declaredNamesL, List.flatten_cons]
          rw [ih.1, declaredNames_body, hn2]
          rfl
        · simp only [List.map_cons, List.flatten_cons]
          rw [declaredNamesL_append, ih.2.1, hn1]
        · simp only [List.map_cons, List.flatten_cons]
          rw [declaredNamesL_append, ih.2.2, hn3]
  exact key (exceptMapM_ok_forall₂ hres)

theorem objRes_declNames {P : Prims} {fs : FileSys} {catalog : AssetCatalog}
    {seed : Int} {objs : List ObjectSpec}
    {objRes : List (List XmlElem × List XmlElem × List XmlElem)}
    (hres : exceptMapM (processObj P fs catalog seed) objs = .ok objRes) :
    declaredNamesL ((objRes.map (fun r => r.1)).flatten)
      = ((objs.map (objFragNames P fs catalog seed)).map
          (fun l => (l.map (fun q => [q.1] ++ q.2.2.1)).flatten)).flatten ∧
    declaredNamesL ((objRes.map (fun r => r.2.1)).flatten)
      = ((objs.map (objFragNames P fs catalog seed)).map
          (fun l => (l.map (fun q => q.2.1)).flatten)).flatten ∧
    declaredNamesL ((objRes.map (fun r => r.2.2)).flatten)
      = ((objs.map (objFragNames P fs catalog seed)).map
          (fun l => (l.map (fun q => q.2.2.2)).flatten)).flatten := by
  have h2 := exceptMapM_ok_forall₂ hres
  clear hres
  induction h2 with
  | nil => exact ⟨rfl, rfl, rfl⟩
  | cons hab htail ih =>
      obtain ⟨p1, p2, p3⟩ := processObj_declNames hab
      refine ⟨?_, ?_, ?_⟩
      · simp only [List.map_cons, List.flatten_cons]
        rw [declaredNamesL_append, ih.1, p1]
      · simp only [List.map_cons, List.flatten_cons]
        rw [declaredNamesL_append, ih.2.1, p2]
      · simp only [List.map_cons, List.flatten_cons]
        rw [declaredNamesL_append, ih.2.2, p3]

theorem buildDoc_names {P : Prims} {fs : FileSys} {scene : SceneSpec}
    {catalog : AssetCatalog} {seed : Int} {doc : XmlElem}
    (hok : buildDoc P fs scene catalog seed = .ok doc) :
    declaredNames doc = expectedDocNames P fs scene catalog seed := by
  obtain ⟨envM, envContent, objRes, hm, hc, hres, hdoc⟩ := buildDoc_ok_shape hok
  subst hdoc
  have hl := catalogGet_ok_lookup hm
  obtain ⟨e1, e2, e3⟩ := loadAssetContent_names hc
  obtain ⟨o1, o2, o3⟩ := objRes_declNames hres
  unfold expectedDocNames
  rw [hl]
  dsimp only
  rw [declaredNames_mujoco, declaredNamesL_append]
  simp only [declaredNamesL]
  rw [declaredNames_compiler, declaredNames_option, declaredNames_visual,
    declaredNames_noattrs, declaredNames_noattrs,
    declaredNamesL_append, declaredNamesL_append, declaredNamesL_gridAssets,
    e1, o2,
    declaredNamesL_append, declaredNamesL_append, declaredNamesL_append,
    declaredNamesL_lights, o1,
    declaredNamesL_map_mkCamera]
  have henvb : declaredNamesL
      [XmlElem.mk "body"
        [("name", "env_" ++ scene.environment.asset_id), ("pos", "0 0 0")]
        envContent.worldbody]
      = ("env_" ++ scene.environment.asset_id) :: declaredNamesL envContent.worldbody := by
    show declaredNames (XmlElem.mk "body"
        [("name", "env_" ++ scene.environment.asset_id), ("pos", "0 0 0")]
        envContent.worldbody) ++ [] = _
    rw [List.append_nil, declaredNames_envBody]
  rw [henvb, e2]
  cases hse : (envContent.sensors ++ (objRes.map (fun r => r.2.2)).flatten).isEmpty with
  | true =>
      have hemp := List.isEmpty_iff.1 hse
      obtain ⟨hs1, hs2⟩ := List.append_eq_nil.1 hemp
      rw [hs1] at e3
      rw [hs2] at o3
      simp only [declaredNamesL] at e3 o3
      rw [← e3, ← o3]
      simp [List.append_assoc]
      rfl
  | false =>
      simp only [Bool.false_eq_true, if_false, declaredNamesL]
      rw [declaredNames_noattrs, declaredNamesL_append, e3, o3]
      simp [List.append_assoc]

theorem loadAssetContent_refs {fs : FileSys} {path pfx : String}
    {root : XmlElem} {content : AssetContent}
    (hfs : fs path = some (.parsed root)) (ht : (root.tag == "mujoco") = true)
    (hsecA : ∀ s, findChild root "asset" = some s → getAttr s "name" = none)
    (hsecW : ∀ s, findChild root "worldbody" = some s → getAttr s "name" = none)
    (hsecS : ∀ s, findChild root "sensor" = some s → getAttr s "name" = none)
    (h : loadAssetContent fs path pfx = .ok content) :
    (∀ n ∈ sectionNames root,
      (pfx ++ "_" ++ n) ∈ declaredNamesL
        (content.assets ++ content.worldbody ++ content.sensors)) ∧
    (∀ v ∈ refValuesL (content.assets ++ content.worldbody ++ content.sensors),
      (∃ n ∈ sectionNames root, v = pfx ++ "_" ++ n) ∨
      v ∈ refValuesL (sectionChildren root "asset"
          ++ sectionChildren root "worldbody" ++ sectionChildren root "sensor")) := by
  obtain ⟨hA, hW, hS⟩ := loadAssetContent_parsed_shape hfs ht h
  have hnames : declaredNamesL (content.assets ++ content.worldbody ++ content.sensors)
      = (sectionNames root).map (applyRen (sectionNames root) pfx) := by
    rw [declaredNamesL_append, declaredNamesL_append, hA, hW, hS,
      declaredNamesL_rename, declaredNamesL_rename, declaredNamesL_rename,
      ← List.map_append, ← List.map_append,
      ← sectionNames_unnamed hsecA hsecW hsecS]
  have hrefs : refValuesL (content.assets ++ content.worldbody ++ content.sensors)
      = (refValuesL (sectionChildren root "asset"
          ++ sectionChildren root "worldbody" ++ sectionChildren root "sensor")).map
        (applyRen (sectionNames root) pfx) := by
    rw [refValuesL_append, refValuesL_append, hA, hW, hS,
      refValuesL_rename, refValuesL_rename, refValuesL_rename,
      refValuesL_append, refValuesL_append, List.map_append, List.map_append]
  refine ⟨?_, ?_⟩
  · intro n hn
    rw [hnames]
    have hcont : (sectionNames root).contains n = true := by
      simpa using hn
    have happ : applyRen (sectionNames root) pfx n = pfx ++ "_" ++ n := by
      unfold applyRen
      rw [if_pos hcont]
    rw [← happ]
    exact List.mem_map_of_mem _ hn
  · intro v hv
    rw [hrefs] at hv
    rcases List.mem_map.1 hv with ⟨v0, hv0, rfl⟩
    by_cases hcv : v0 ∈ sectionNames root
    · left
      refine ⟨v0, hcv, ?_⟩
      unfold applyRen
      rw [if_pos (by simpa using hcv)]
    · right
      have happ : applyRen (sectionNames root) pfx v0 = v0 := by
        unfold applyRen
        rw [if_neg (by simpa using hcv)]
      rw [happ]
      exact hv0

/-- C1 (amended): the element names of the compiled document are exactly
the expected list — built-in asset names, renamed fragment names, light
names, environment body name, instance body names, camera names — in
document order, so they are unique exactly when that list is
duplicate-free (which fails when two ObjectSpecs share an asset id
without explicit names); and provided fragment section containers carry
no name attribute of their own, every `name_map` target of a fragment is
declared by an element inlined into the document, and every reference
value of the inlined content is either a rewritten (prefixed) collected
name or an untouched original reference. -/
theorem element_names_and_refs (P : Prims) (fs : FileSys) (scene : SceneSpec)
    (catalog : AssetCatalog) (seed : Int) (doc : XmlElem)
    (hok : buildDoc P fs scene catalog seed = .ok doc)
    (hsec : FsSectionsUnnamed fs) :
    declaredNames doc = expectedDocNames P fs scene catalog seed ∧
    ((expectedDocNames P fs scene catalog seed).Nodup → (declaredNames doc).Nodup) ∧
    (∀ path root pfx content,
      fs path = some (.parsed root) → root.tag = "mujoco" →
      loadAssetContent fs path pfx = .ok content →
      (∀ n ∈ sectionNames root,
        (pfx ++ "_" ++ n) ∈ declaredNamesL
          (content.assets ++ content.worldbody ++ content.sensors)) ∧
      (∀ v ∈ refValuesL (content.assets ++ content.worldbody ++ content.sensors),
        (∃ n ∈ sectionNames root, v = pfx ++ "_" ++ n) ∨
        v ∈ refValuesL (sectionChildren root "asset"
            ++ sectionChildren root "worldbody" ++ sectionChildren root "sensor"))) := by
  have h1 := buildDoc_names hok
  refine ⟨h1, fun hnd => h1 ▸ hnd, ?_⟩
  intro path root pfx content hfs ht hload
  obtain ⟨ha, hw, hs⟩ := hsec path root hfs ht
  exact loadAssetContent_refs hfs (by simp [ht]) ha hw hs hload

theorem fs1_sections_unnamed : FsSectionsUnnamed fs1 := by
  intro path root hfs ht
  unfold fs1 at hfs
  by_cases hp : (path == "orchard/model.xml" || path == "crate/model.xml") = true
  · rw [if_pos hp] at hfs
    injection hfs with hfs
    injection hfs with hfs
    subst hfs
    refine ⟨?_, ?_, ?_⟩
    · intro s hs
      rw [show findChild fragTrivial "asset" = none from rfl] at hs
      cases hs
    · intro s hs
      rw [show findChild fragTrivial "worldbody"
          = some (XmlElem.mk "worldbody" [] [XmlElem.mk "geom" [("type", "plane")] []])
          from rfl] at hs
      injection hs with hs
      subst hs
      rfl
    · intro s hs
      rw [show findChild fragTrivial "sensor" = none from rfl] at hs
      cases hs
  · rw [if_neg hp] at hfs
    cases hfs

/-- Witness for C1 (amended) at the shared-asset-id compile: the name
list of the compiled document is exactly the expected list. -/
theorem element_names_and_refs_witness :
    declaredNames docC1 = expectedDocNames P0 fs1 sceneC1 catC7 42 :=
  (element_names_and_refs P0 fs1 sceneC1 catC7 42 docC1 rfl
    fs1_sections_unnamed).1

/-- Counterexample to C1 as stated: two ObjectSpecs sharing the asset id
`crate` with no explicit names compile to a document whose name list
contains `crate_0` twice — element names are not unique; and with a
fragment whose worldbody section itself carries the name `w`, the geom's
`site` reference is rewritten to `env_orchard_w`, which resolves to no
element name in the compiled document — a rewritten reference dangles. -/
theorem unique_names_counterexample :
    declaredNames docC1
      = ["grid", "grid_mat", "default_light", "env_orchard", "crate_0", "crate_0"] ∧
    ¬ (["grid", "grid_mat", "default_light", "env_orchard", "crate_0",
        "crate_0"] : List String).Nodup ∧
    sceneC1.objects.map (fun o => o.asset_id) = ["crate", "crate"] ∧
    refValuesE docW = ["grid", "env_orchard_w"] ∧
    declaredNames docW = ["grid", "grid_mat", "default_light", "env_orchard"] ∧
    ¬ ("env_orchard_w" ∈ (["grid", "grid_mat", "default_light",
        "env_orchard"] : List String)) := by
  refine ⟨rfl, by decide, rfl, rfl, rfl, by decide⟩

end NeoScene
